import Mathlib

/-!
Verification of the KeyPath keyboard-image extraction pipeline
(`Scripts/extract_keyboards.py` and `Scripts/extract_keyboards_v2.py`).

The pipeline samples a background color from the corners of a region,
flood-fills from the border to classify background pixels within a
color-distance tolerance, applies the resulting alpha mask, crops to the
content bounding box, and scales/centers the result onto a fixed canvas.

Conventions of the embedding:
* 8-bit channel values are `Nat` (the scripts never overflow a channel).
* Pixel coordinates inside the flood fill are `Int × Int`, exactly as in
  Python, where neighbor coordinates may temporarily go negative.
* The Python comparison `sqrt(d2) <= tolerance` (float `** 0.5` in v1,
  `math.sqrt` in v2) is embedded exactly as
  `0 ≤ tolerance ∧ d2 ≤ tolerance²`, which is equivalent over the reals;
  every tolerance the scripts pass is an integer, so tolerance is an `Int`
  here, and for channel values ≤ 255 the float evaluation agrees with the
  exact comparison (the gap between adjacent doubles near √195075 is far
  below the minimal nonzero margin of the comparison).
* The BFS loops are embedded with an explicit step budget (`fuel`); the
  budget `8*w*h + 2*w + 2*h` is proved sufficient below (each step either
  consumes a queue entry or visits a new cell, and a visit enqueues at
  most 8 entries), so the embedded function reaches the empty queue on
  exactly the same trace as the Python loop.
-/

/-- An RGB color: a 3-tuple of 8-bit channel values. -/
structure Color where
  r : Nat
  g : Nat
  b : Nat
deriving DecidableEq, Repr

/-- A pixel coordinate `(x, y)`, signed as in the Python loops. -/
abbrev Pos := Int × Int

/-- Squared Euclidean distance between two RGB colors
(`color_distance` squared; both scripts compute
`(c1[0]-c2[0])**2 + (c1[1]-c2[1])**2 + (c1[2]-c2[2])**2` under the root). -/
def dist2 (c1 c2 : Color) : Int :=
  ((c1.r : Int) - c2.r) ^ 2 + ((c1.g : Int) - c2.g) ^ 2 + ((c1.b : Int) - c2.b) ^ 2

/-- The background test `color_distance(pixel, bg_color) <= tolerance`:
exact semantics of `sqrt (dist2) ≤ tol`. -/
def bgClose (c bg : Color) (tol : Int) : Bool :=
  decide (0 ≤ tol ∧ dist2 c bg ≤ tol * tol)

/-- In-bounds test `0 <= x < width and 0 <= y < height`. -/
def InB (w h : Nat) (p : Pos) : Prop :=
  0 ≤ p.1 ∧ p.1 < (w : Int) ∧ 0 ≤ p.2 ∧ p.2 < (h : Int)

instance (w h : Nat) (p : Pos) : Decidable (InB w h p) := by
  unfold InB; exact inferInstance

/-- Boolean form of the in-bounds test, used inside the loops. -/
def inBb (w h : Nat) (p : Pos) : Bool := decide (InB w h p)

/-- A border pixel: row 0, last row, column 0 or last column. -/
def OnBorder (w h : Nat) (p : Pos) : Prop :=
  p.2 = 0 ∨ p.2 = (h : Int) - 1 ∨ p.1 = 0 ∨ p.1 = (w : Int) - 1

instance (w h : Nat) (p : Pos) : Decidable (OnBorder w h p) := by
  unfold OnBorder; exact inferInstance

/-- The 8-connected neighbor offsets, in the order both scripts list them. -/
def offsets : List Pos :=
  [(-1, -1), (-1, 0), (-1, 1), (0, -1), (0, 1), (1, -1), (1, 0), (1, 1)]

/-- `Adj8 p q`: `q` is one of the eight neighbors of `p`. -/
def Adj8 (p q : Pos) : Prop := (q.1 - p.1, q.2 - p.2) ∈ offsets

instance (p q : Pos) : Decidable (Adj8 p q) := by
  unfold Adj8; exact inferInstance

/-- The seed queue: both scripts enqueue `(x, 0)`, `(x, height-1)` for every
column and `(0, y)`, `(width-1, y)` for every row. -/
def seeds (w h : Nat) : List Pos :=
  ((List.range w).flatMap fun (x : Nat) => [((x : Int), 0), ((x : Int), (h : Int) - 1)]) ++
    ((List.range h).flatMap fun (y : Nat) => [(0, (y : Int)), ((w : Int) - 1, (y : Int))])

/-- Pointwise update of a map, modelling a single array/set write. -/
def upd {α : Type} (f : Pos → α) (p : Pos) (v : α) : Pos → α :=
  fun q => if q = p then v else f q

/-- BFS loop of `extract_keyboards.py::flood_fill_background`: dequeue from
the left; skip out-of-bounds, then skip visited; mark visited; if the pixel
is within tolerance of the background set its alpha to 0 and enqueue the
8 neighbors that are in bounds and unvisited. `fuel` bounds the number of
iterations and is proved sufficient. -/
def floodLoop (w h : Nat) (pix : Pos → Color) (bg : Color) (tol : Int) :
    Nat → List Pos → (Pos → Bool) → (Pos → Nat) → Pos → Nat
  | 0, _, _, alpha => alpha
  | _ + 1, [], _, alpha => alpha
  | fuel + 1, p :: rest, visited, alpha =>
    if InB w h p then
      if visited p then
        floodLoop w h pix bg tol fuel rest visited alpha
      else
        if bgClose (pix p) bg tol then
          floodLoop w h pix bg tol fuel
            (rest ++ (offsets.map fun d => (p.1 + d.1, p.2 + d.2)).filter
              fun q => inBb w h q && ! upd visited p true q)
            (upd visited p true) (upd alpha p 0)
        else
          floodLoop w h pix bg tol fuel rest (upd visited p true) alpha
    else
      floodLoop w h pix bg tol fuel rest visited alpha

/-- `flood_fill_background` of `extract_keyboards.py`: the resulting alpha
mask (255 = opaque, 0 = transparent), seeded from all edge pixels. -/
def flood_fill_background (w h : Nat) (pix : Pos → Color) (bg : Color) (tol : Int) :
    Pos → Nat :=
  floodLoop w h pix bg tol (8 * w * h + 2 * w + 2 * h) (seeds w h)
    (fun _ => false) (fun _ => 255)

/-- BFS loop of `extract_keyboards_v2.py::flood_fill_background`: identical
except the visited check precedes the bounds check at dequeue time, and
neighbors are enqueued whenever unvisited (no bounds check at enqueue). -/
def floodLoop2 (w h : Nat) (pix : Pos → Color) (bg : Color) (tol : Int) :
    Nat → List Pos → (Pos → Bool) → (Pos → Nat) → Pos → Nat
  | 0, _, _, alpha => alpha
  | _ + 1, [], _, alpha => alpha
  | fuel + 1, p :: rest, visited, alpha =>
    if visited p then
      floodLoop2 w h pix bg tol fuel rest visited alpha
    else
      if InB w h p then
        if bgClose (pix p) bg tol then
          floodLoop2 w h pix bg tol fuel
            (rest ++ (offsets.map fun d => (p.1 + d.1, p.2 + d.2)).filter
              fun q => ! upd visited p true q)
            (upd visited p true) (upd alpha p 0)
        else
          floodLoop2 w h pix bg tol fuel rest (upd visited p true) alpha
      else
        floodLoop2 w h pix bg tol fuel rest visited alpha

/-- `flood_fill_background` of `extract_keyboards_v2.py` (8-bit `'L'` mask,
hashed visited set). -/
def flood_fill_background_v2 (w h : Nat) (pix : Pos → Color) (bg : Color) (tol : Int) :
    Pos → Nat :=
  floodLoop2 w h pix bg tol (8 * w * h + 2 * w + 2 * h) (seeds w h)
    (fun _ => false) (fun _ => 255)

/-- Reachability by an 8-connected path from a border pixel, every pixel on
the path (endpoints included) within tolerance of the background color. -/
inductive Reach (w h : Nat) (pix : Pos → Color) (bg : Color) (tol : Int) : Pos → Prop where
  | border (p : Pos) :
      InB w h p → OnBorder w h p → bgClose (pix p) bg tol = true →
      Reach w h pix bg tol p
  | step (p q : Pos) :
      Reach w h pix bg tol p → Adj8 p q → InB w h q →
      bgClose (pix q) bg tol = true → Reach w h pix bg tol q

/-! ### Bookkeeping for the step budget of the BFS loops -/

/-- All in-bounds coordinates of a `w × h` region. -/
def cells (w h : Nat) : List Pos :=
  (List.range h).flatMap fun (y : Nat) => (List.range w).map fun (x : Nat) => ((x : Int), (y : Int))

/-- Number of cells a visited map has not yet marked. -/
def unvisited (w h : Nat) (V : Pos → Bool) : Nat :=
  (cells w h).countP fun p => ! V p

lemma upd_self {α : Type} (f : Pos → α) (p : Pos) (v : α) : upd f p v p = v := by
  simp [upd]

lemma upd_ne {α : Type} (f : Pos → α) (p q : Pos) (v : α) (h : q ≠ p) :
    upd f p v q = f q := by
  simp [upd, h]

lemma mem_cells {w h : Nat} {p : Pos} : p ∈ cells w h ↔ InB w h p := by
  obtain ⟨x, y⟩ := p
  simp only [cells, List.mem_flatMap, List.mem_map, List.mem_range, InB, Prod.mk.injEq]
  constructor
  · rintro ⟨b, hb, a, ha, h1, h2⟩
    refine ⟨?_, ?_, ?_, ?_⟩ <;> omega
  · rintro ⟨h1, h2, h3, h4⟩
    exact ⟨y.toNat, by omega, x.toNat, ⟨by omega, by omega, by omega⟩⟩

lemma length_cells (w h : Nat) : (cells w h).length = h * w := by
  simp [cells, List.length_flatMap, Function.comp_def, List.map_const]

lemma countP_lt_of_mem {α : Type} {f g : α → Bool}
    (hle : ∀ a, g a = true → f a = true) :
    ∀ (l : List α) (p : α), p ∈ l → f p = true → g p = false →
      l.countP g < l.countP f := by
  intro l
  induction l with
  | nil => intro p hp; cases hp
  | cons a t ih =>
    intro p hp hf hg
    rcases List.mem_cons.1 hp with rfl | hpt
    · rw [List.countP_cons, List.countP_cons, hf, hg]
      have hmono : t.countP g ≤ t.countP f :=
        List.countP_mono_left fun a _ ha => hle a ha
      simp only [Bool.false_eq_true, if_false, if_true]
      omega
    · rw [List.countP_cons, List.countP_cons]
      have := ih p hpt hf hg
      have hca : (if g a = true then 1 else 0) ≤ (if f a = true then 1 else 0) := by
        by_cases hga : g a = true
        · simp [hga, hle a hga]
        · simp [hga]
      omega

lemma unvisited_upd_lt {w h : Nat} {V : Pos → Bool} {p : Pos}
    (hin : InB w h p) (hv : V p = false) :
    unvisited w h (upd V p true) < unvisited w h V := by
  unfold unvisited
  refine countP_lt_of_mem ?_ (cells w h) p (mem_cells.2 hin) ?_ ?_
  · intro a ha
    by_cases hap : a = p
    · subst hap; rw [upd_self] at ha; simp at ha
    · rw [upd_ne _ _ _ _ hap] at ha; exact ha
  · simp [hv]
  · simp [upd_self]

lemma unvisited_false (w h : Nat) : unvisited w h (fun _ => false) = h * w := by
  rw [unvisited, ← length_cells w h]
  simp

lemma length_seeds (w h : Nat) : (seeds w h).length = 2 * w + 2 * h := by
  simp [seeds, List.length_flatMap, Function.comp_def, List.map_const]
  ring

lemma seeds_border {w h : Nat} {p : Pos} (hp : p ∈ seeds w h) : OnBorder w h p := by
  simp only [seeds, List.mem_append, List.mem_flatMap, List.mem_range,
    List.mem_cons, List.not_mem_nil, or_false] at hp
  rcases hp with ⟨x, _, hx⟩ | ⟨y, _, hy⟩
  · rcases hx with rfl | rfl
    · exact Or.inl rfl
    · exact Or.inr (Or.inl rfl)
  · rcases hy with rfl | rfl
    · exact Or.inr (Or.inr (Or.inl rfl))
    · exact Or.inr (Or.inr (Or.inr rfl))

lemma seeds_mem_of_border {w h : Nat} {p : Pos} (hin : InB w h p)
    (hb : OnBorder w h p) : p ∈ seeds w h := by
  obtain ⟨x, y⟩ := p
  obtain ⟨h1, h2, h3, h4⟩ := hin
  simp only [OnBorder] at hb
  simp only [seeds, List.mem_append, List.mem_flatMap, List.mem_range,
    List.mem_cons, List.not_mem_nil, or_false, Prod.mk.injEq]
  rcases hb with hy0 | hyh | hx0 | hxw
  · exact Or.inl ⟨x.toNat, by omega, Or.inl ⟨by omega, by omega⟩⟩
  · exact Or.inl ⟨x.toNat, by omega, Or.inr ⟨by omega, by omega⟩⟩
  · exact Or.inr ⟨y.toNat, by omega, Or.inl ⟨by omega, by omega⟩⟩
  · exact Or.inr ⟨y.toNat, by omega, Or.inr ⟨by omega, by omega⟩⟩

/-! ### Soundness: a pixel marked transparent is border-reachable -/

lemma inBb_iff {w h : Nat} {p : Pos} : inBb w h p = true ↔ InB w h p := by
  simp [inBb]

lemma floodLoop_sound (w h : Nat) (pix : Pos → Color) (bg : Color) (tol : Int) :
    ∀ (fuel : Nat) (Q : List Pos) (V : Pos → Bool) (A : Pos → Nat),
      (∀ p, A p = 0 → Reach w h pix bg tol p) →
      (∀ p, p ∈ Q → InB w h p →
        OnBorder w h p ∨ ∃ q, Reach w h pix bg tol q ∧ Adj8 q p) →
      ∀ p, floodLoop w h pix bg tol fuel Q V A p = 0 → Reach w h pix bg tol p := by
  intro fuel
  induction fuel with
  | zero =>
    intro Q V A hA hQ p hp
    rw [floodLoop] at hp
    exact hA p hp
  | succ n ih =>
    intro Q V A hA hQ p hp
    cases Q with
    | nil =>
      rw [floodLoop] at hp
      exact hA p hp
    | cons q0 rest =>
      rw [floodLoop] at hp
      split at hp
      · split at hp
        · exact ih rest V A hA (fun r hr => hQ r (List.mem_cons_of_mem _ hr)) p hp
        · split at hp
          · next hin hv hbg =>
            have hreach0 : Reach w h pix bg tol q0 := by
              rcases hQ q0 (List.mem_cons_self _ _) hin with hb | ⟨q, hq, hadj⟩
              · exact Reach.border q0 hin hb hbg
              · exact Reach.step q q0 hq hadj hin hbg
            refine ih _ _ _ ?_ ?_ p hp
            · intro r hr
              by_cases hrq : r = q0
              · subst hrq; exact hreach0
              · exact hA r (by rwa [upd_ne _ _ _ _ hrq] at hr)
            · intro r hr hrin
              rcases List.mem_append.1 hr with hr1 | hr2
              · exact hQ r (List.mem_cons_of_mem _ hr1) hrin
              · obtain ⟨hmap, _⟩ := List.mem_filter.1 hr2
                obtain ⟨d, hd, rfl⟩ := List.mem_map.1 hmap
                refine Or.inr ⟨q0, hreach0, ?_⟩
                simpa [Adj8, add_sub_cancel_left] using hd
          · next hin hv hbg =>
            exact ih rest _ A hA (fun r hr => hQ r (List.mem_cons_of_mem _ hr)) p hp
      · exact ih rest V A hA (fun r hr => hQ r (List.mem_cons_of_mem _ hr)) p hp

lemma floodLoop2_sound (w h : Nat) (pix : Pos → Color) (bg : Color) (tol : Int) :
    ∀ (fuel : Nat) (Q : List Pos) (V : Pos → Bool) (A : Pos → Nat),
      (∀ p, A p = 0 → Reach w h pix bg tol p) →
      (∀ p, p ∈ Q → InB w h p →
        OnBorder w h p ∨ ∃ q, Reach w h pix bg tol q ∧ Adj8 q p) →
      ∀ p, floodLoop2 w h pix bg tol fuel Q V A p = 0 → Reach w h pix bg tol p := by
  intro fuel
  induction fuel with
  | zero =>
    intro Q V A hA hQ p hp
    rw [floodLoop2] at hp
    exact hA p hp
  | succ n ih =>
    intro Q V A hA hQ p hp
    cases Q with
    | nil =>
      rw [floodLoop2] at hp
      exact hA p hp
    | cons q0 rest =>
      rw [floodLoop2] at hp
      split at hp
      · exact ih rest V A hA (fun r hr => hQ r (List.mem_cons_of_mem _ hr)) p hp
      · split at hp
        · split at hp
          · next hv hin hbg =>
            have hreach0 : Reach w h pix bg tol q0 := by
              rcases hQ q0 (List.mem_cons_self _ _) hin with hb | ⟨q, hq, hadj⟩
              · exact Reach.border q0 hin hb hbg
              · exact Reach.step q q0 hq hadj hin hbg
            refine ih _ _ _ ?_ ?_ p hp
            · intro r hr
              by_cases hrq : r = q0
              · subst hrq; exact hreach0
              · exact hA r (by rwa [upd_ne _ _ _ _ hrq] at hr)
            · intro r hr hrin
              rcases List.mem_append.1 hr with hr1 | hr2
              · exact hQ r (List.mem_cons_of_mem _ hr1) hrin
              · obtain ⟨hmap, _⟩ := List.mem_filter.1 hr2
                obtain ⟨d, hd, rfl⟩ := List.mem_map.1 hmap
                refine Or.inr ⟨q0, hreach0, ?_⟩
                simpa [Adj8, add_sub_cancel_left] using hd
          · next hv hin hbg =>
            exact ih rest _ A hA (fun r hr => hQ r (List.mem_cons_of_mem _ hr)) p hp
        · exact ih rest V A hA (fun r hr => hQ r (List.mem_cons_of_mem _ hr)) p hp

/-- The masks only ever hold 0 (transparent) or 255 (opaque). -/
lemma floodLoop_vals (w h : Nat) (pix : Pos → Color) (bg : Color) (tol : Int) :
    ∀ (fuel : Nat) (Q : List Pos) (V : Pos → Bool) (A : Pos → Nat),
      (∀ p : Pos, A p = 0 ∨ A p = 255) →
      ∀ p, floodLoop w h pix bg tol fuel Q V A p = 0 ∨
        floodLoop w h pix bg tol fuel Q V A p = 255 := by
  intro fuel
  induction fuel with
  | zero => intro Q V A hA p; rw [floodLoop]; exact hA p
  | succ n ih =>
    intro Q V A hA p
    cases Q with
    | nil => rw [floodLoop]; exact hA p
    | cons q0 rest =>
      rw [floodLoop]
      split
      · split
        · exact ih rest V A hA p
        · split
          · refine ih _ _ _ ?_ p
            intro r
            by_cases hrq : r = q0
            · subst hrq; rw [upd_self]; exact Or.inl rfl
            · rw [upd_ne _ _ _ _ hrq]; exact hA r
          · exact ih rest _ A hA p
      · exact ih rest V A hA p

lemma floodLoop2_vals (w h : Nat) (pix : Pos → Color) (bg : Color) (tol : Int) :
    ∀ (fuel : Nat) (Q : List Pos) (V : Pos → Bool) (A : Pos → Nat),
      (∀ p : Pos, A p = 0 ∨ A p = 255) →
      ∀ p, floodLoop2 w h pix bg tol fuel Q V A p = 0 ∨
        floodLoop2 w h pix bg tol fuel Q V A p = 255 := by
  intro fuel
  induction fuel with
  | zero => intro Q V A hA p; rw [floodLoop2]; exact hA p
  | succ n ih =>
    intro Q V A hA p
    cases Q with
    | nil => rw [floodLoop2]; exact hA p
    | cons q0 rest =>
      rw [floodLoop2]
      split
      · exact ih rest V A hA p
      · split
        · split
          · refine ih _ _ _ ?_ p
            intro r
            by_cases hrq : r = q0
            · subst hrq; rw [upd_self]; exact Or.inl rfl
            · rw [upd_ne _ _ _ _ hrq]; exact hA r
          · exact ih rest _ A hA p
        · exact ih rest V A hA p

/-! ### Completeness: border background pixels, and background neighbors of
transparent pixels, end up transparent. The step budget `fuel` must dominate
`8 * unvisited + |queue|`, which strictly decreases at every iteration. -/

lemma floodLoop_complete (w h : Nat) (pix : Pos → Color) (bg : Color) (tol : Int) :
    ∀ (fuel : Nat) (Q : List Pos) (V : Pos → Bool) (A : Pos → Nat),
      8 * unvisited w h V + Q.length ≤ fuel →
      (∀ p, V p = true → InB w h p) →
      (∀ p, InB w h p → OnBorder w h p → V p = true ∨ p ∈ Q) →
      (∀ q r, A q = 0 → Adj8 q r → InB w h r → V r = true ∨ r ∈ Q) →
      (∀ p, V p = true → bgClose (pix p) bg tol = true → A p = 0) →
      (∀ p, A p = 0 → V p = true) →
      (∀ p, InB w h p → OnBorder w h p → bgClose (pix p) bg tol = true →
        floodLoop w h pix bg tol fuel Q V A p = 0) ∧
      (∀ q r, floodLoop w h pix bg tol fuel Q V A q = 0 → Adj8 q r → InB w h r →
        bgClose (pix r) bg tol = true → floodLoop w h pix bg tol fuel Q V A r = 0) := by
  intro fuel
  induction fuel with
  | zero =>
    intro Q V A hM h2 h3 h4 h5 h6
    have hQnil : Q = [] := List.eq_nil_of_length_eq_zero (by omega)
    subst hQnil
    rw [floodLoop]
    constructor
    · intro p hin hb hbg
      rcases h3 p hin hb with hv | hmem
      · exact h5 p hv hbg
      · cases hmem
    · intro q r hq hadj hrin hbg
      rcases h4 q r hq hadj hrin with hv | hmem
      · exact h5 r hv hbg
      · cases hmem
  | succ n ih =>
    intro Q V A hM h2 h3 h4 h5 h6
    cases Q with
    | nil =>
      rw [floodLoop]
      constructor
      · intro p hin hb hbg
        rcases h3 p hin hb with hv | hmem
        · exact h5 p hv hbg
        · cases hmem
      · intro q r hq hadj hrin hbg
        rcases h4 q r hq hadj hrin with hv | hmem
        · exact h5 r hv hbg
        · cases hmem
    | cons q0 rest =>
      simp only [List.length_cons] at hM
      by_cases hin : InB w h q0
      · by_cases hv : V q0 = true
        · rw [floodLoop, if_pos hin, if_pos hv]
          apply ih rest V A (by omega) h2
          · intro p hpin hpb
            rcases h3 p hpin hpb with hpv | hpm
            · exact Or.inl hpv
            · rcases List.mem_cons.1 hpm with rfl | hpm2
              · exact Or.inl hv
              · exact Or.inr hpm2
          · intro q r hq hadj hrin
            rcases h4 q r hq hadj hrin with hrv | hrm
            · exact Or.inl hrv
            · rcases List.mem_cons.1 hrm with rfl | hrm2
              · exact Or.inl hv
              · exact Or.inr hrm2
          · exact h5
          · exact h6
        · have hvf : V q0 = false := by simpa using hv
          by_cases hbg : bgClose (pix q0) bg tol = true
          · rw [floodLoop, if_pos hin, if_neg hv, if_pos hbg]
            apply ih
            · have hlt := unvisited_upd_lt hin hvf
              have hn : ((offsets.map fun d => (q0.1 + d.1, q0.2 + d.2)).filter
                  fun q => inBb w h q && ! upd V q0 true q).length ≤ 8 := by
                calc ((offsets.map fun d => (q0.1 + d.1, q0.2 + d.2)).filter
                      fun q => inBb w h q && ! upd V q0 true q).length
                    ≤ (offsets.map fun d => (q0.1 + d.1, q0.2 + d.2)).length :=
                      List.length_filter_le _ _
                  _ = 8 := by simp [offsets]
              simp only [List.length_append]
              omega
            · intro p hpv
              by_cases hpq : p = q0
              · subst hpq; exact hin
              · exact h2 p (by rwa [upd_ne _ _ _ _ hpq] at hpv)
            · intro p hpin hpb
              by_cases hpq : p = q0
              · subst hpq; exact Or.inl (upd_self _ _ _)
              · rcases h3 p hpin hpb with hpv | hpm
                · exact Or.inl (by rw [upd_ne _ _ _ _ hpq]; exact hpv)
                · rcases List.mem_cons.1 hpm with rfl | hpm2
                  · exact absurd rfl hpq
                  · exact Or.inr (List.mem_append_left _ hpm2)
            · intro q r hq hadj hrin
              by_cases hqq : q = q0
              · rw [hqq] at hadj
                by_cases hrv : upd V q0 true r = true
                · exact Or.inl hrv
                · have hrvf : upd V q0 true r = false := by simpa using hrv
                  refine Or.inr (List.mem_append_right _ (List.mem_filter.2 ⟨?_, ?_⟩))
                  · refine List.mem_map.2 ⟨(r.1 - q0.1, r.2 - q0.2), hadj, ?_⟩
                    obtain ⟨r1, r2⟩ := r
                    simp only [Prod.mk.injEq]
                    constructor <;> ring
                  · simp [inBb, hrin, hrvf]
              · have hq' : A q = 0 := by rwa [upd_ne _ _ _ _ hqq] at hq
                rcases h4 q r hq' hadj hrin with hrv | hrm
                · refine Or.inl ?_
                  by_cases hrq : r = q0
                  · subst hrq; exact upd_self _ _ _
                  · rw [upd_ne _ _ _ _ hrq]; exact hrv
                · rcases List.mem_cons.1 hrm with rfl | hrm2
                  · exact Or.inl (upd_self _ _ _)
                  · exact Or.inr (List.mem_append_left _ hrm2)
            · intro p hpv hpbg
              by_cases hpq : p = q0
              · subst hpq; exact upd_self _ _ _
              · rw [upd_ne _ _ _ _ hpq] at hpv
                rw [upd_ne _ _ _ _ hpq]
                exact h5 p hpv hpbg
            · intro p hp0
              by_cases hpq : p = q0
              · subst hpq; exact upd_self _ _ _
              · rw [upd_ne _ _ _ _ hpq] at hp0
                rw [upd_ne _ _ _ _ hpq]
                exact h6 p hp0
          · rw [floodLoop, if_pos hin, if_neg hv, if_neg hbg]
            apply ih
            · have hlt := unvisited_upd_lt hin hvf
              omega
            · intro p hpv
              by_cases hpq : p = q0
              · subst hpq; exact hin
              · exact h2 p (by rwa [upd_ne _ _ _ _ hpq] at hpv)
            · intro p hpin hpb
              by_cases hpq : p = q0
              · subst hpq; exact Or.inl (upd_self _ _ _)
              · rcases h3 p hpin hpb with hpv | hpm
                · exact Or.inl (by rw [upd_ne _ _ _ _ hpq]; exact hpv)
                · rcases List.mem_cons.1 hpm with rfl | hpm2
                  · exact absurd rfl hpq
                  · exact Or.inr hpm2
            · intro q r hq hadj hrin
              rcases h4 q r hq hadj hrin with hrv | hrm
              · refine Or.inl ?_
                by_cases hrq : r = q0
                · subst hrq; exact upd_self _ _ _
                · rw [upd_ne _ _ _ _ hrq]; exact hrv
              · rcases List.mem_cons.1 hrm with rfl | hrm2
                · exact Or.inl (upd_self _ _ _)
                · exact Or.inr hrm2
            · intro p hpv hpbg
              by_cases hpq : p = q0
              · subst hpq; exact absurd hpbg hbg
              · exact h5 p (by rwa [upd_ne _ _ _ _ hpq] at hpv) hpbg
            · intro p hp0
              by_cases hpq : p = q0
              · subst hpq; exact upd_self _ _ _
              · rw [upd_ne _ _ _ _ hpq]
                exact h6 p hp0
      · rw [floodLoop, if_neg hin]
        apply ih rest V A (by omega) h2
        · intro p hpin hpb
          rcases h3 p hpin hpb with hpv | hpm
          · exact Or.inl hpv
          · rcases List.mem_cons.1 hpm with rfl | hpm2
            · exact absurd hpin hin
            · exact Or.inr hpm2
        · intro q r hq hadj hrin
          rcases h4 q r hq hadj hrin with hrv | hrm
          · exact Or.inl hrv
          · rcases List.mem_cons.1 hrm with rfl | hrm2
            · exact absurd hrin hin
            · exact Or.inr hrm2
        · exact h5
        · exact h6

lemma floodLoop2_complete (w h : Nat) (pix : Pos → Color) (bg : Color) (tol : Int) :
    ∀ (fuel : Nat) (Q : List Pos) (V : Pos → Bool) (A : Pos → Nat),
      8 * unvisited w h V + Q.length ≤ fuel →
      (∀ p, V p = true → InB w h p) →
      (∀ p, InB w h p → OnBorder w h p → V p = true ∨ p ∈ Q) →
      (∀ q r, A q = 0 → Adj8 q r → InB w h r → V r = true ∨ r ∈ Q) →
      (∀ p, V p = true → bgClose (pix p) bg tol = true → A p = 0) →
      (∀ p, A p = 0 → V p = true) →
      (∀ p, InB w h p → OnBorder w h p → bgClose (pix p) bg tol = true →
        floodLoop2 w h pix bg tol fuel Q V A p = 0) ∧
      (∀ q r, floodLoop2 w h pix bg tol fuel Q V A q = 0 → Adj8 q r → InB w h r →
        bgClose (pix r) bg tol = true → floodLoop2 w h pix bg tol fuel Q V A r = 0) := by
  intro fuel
  induction fuel with
  | zero =>
    intro Q V A hM h2 h3 h4 h5 h6
    have hQnil : Q = [] := List.eq_nil_of_length_eq_zero (by omega)
    subst hQnil
    rw [floodLoop2]
    constructor
    · intro p hin hb hbg
      rcases h3 p hin hb with hv | hmem
      · exact h5 p hv hbg
      · cases hmem
    · intro q r hq hadj hrin hbg
      rcases h4 q r hq hadj hrin with hv | hmem
      · exact h5 r hv hbg
      · cases hmem
  | succ n ih =>
    intro Q V A hM h2 h3 h4 h5 h6
    cases Q with
    | nil =>
      rw [floodLoop2]
      constructor
      · intro p hin hb hbg
        rcases h3 p hin hb with hv | hmem
        · exact h5 p hv hbg
        · cases hmem
      · intro q r hq hadj hrin hbg
        rcases h4 q r hq hadj hrin with hv | hmem
        · exact h5 r hv hbg
        · cases hmem
    | cons q0 rest =>
      simp only [List.length_cons] at hM
      by_cases hv : V q0 = true
      · rw [floodLoop2, if_pos hv]
        apply ih rest V A (by omega) h2
        · intro p hpin hpb
          rcases h3 p hpin hpb with hpv | hpm
          · exact Or.inl hpv
          · rcases List.mem_cons.1 hpm with rfl | hpm2
            · exact Or.inl hv
            · exact Or.inr hpm2
        · intro q r hq hadj hrin
          rcases h4 q r hq hadj hrin with hrv | hrm
          · exact Or.inl hrv
          · rcases List.mem_cons.1 hrm with rfl | hrm2
            · exact Or.inl hv
            · exact Or.inr hrm2
        · exact h5
        · exact h6
      · have hvf : V q0 = false := by simpa using hv
        by_cases hin : InB w h q0
        · by_cases hbg : bgClose (pix q0) bg tol = true
          · rw [floodLoop2, if_neg hv, if_pos hin, if_pos hbg]
            apply ih
            · have hlt := unvisited_upd_lt hin hvf
              have hn : ((offsets.map fun d => (q0.1 + d.1, q0.2 + d.2)).filter
                  fun q => ! upd V q0 true q).length ≤ 8 := by
                calc ((offsets.map fun d => (q0.1 + d.1, q0.2 + d.2)).filter
                      fun q => ! upd V q0 true q).length
                    ≤ (offsets.map fun d => (q0.1 + d.1, q0.2 + d.2)).length :=
                      List.length_filter_le _ _
                  _ = 8 := by simp [offsets]
              simp only [List.length_append]
              omega
            · intro p hpv
              by_cases hpq : p = q0
              · subst hpq; exact hin
              · exact h2 p (by rwa [upd_ne _ _ _ _ hpq] at hpv)
            · intro p hpin hpb
              by_cases hpq : p = q0
              · subst hpq; exact Or.inl (upd_self _ _ _)
              · rcases h3 p hpin hpb with hpv | hpm
                · exact Or.inl (by rw [upd_ne _ _ _ _ hpq]; exact hpv)
                · rcases List.mem_cons.1 hpm with rfl | hpm2
                  · exact absurd rfl hpq
                  · exact Or.inr (List.mem_append_left _ hpm2)
            · intro q r hq hadj hrin
              by_cases hqq : q = q0
              · rw [hqq] at hadj
                by_cases hrv : upd V q0 true r = true
                · exact Or.inl hrv
                · have hrvf : upd V q0 true r = false := by simpa using hrv
                  refine Or.inr (List.mem_append_right _ (List.mem_filter.2 ⟨?_, ?_⟩))
                  · refine List.mem_map.2 ⟨(r.1 - q0.1, r.2 - q0.2), hadj, ?_⟩
                    obtain ⟨r1, r2⟩ := r
                    simp only [Prod.mk.injEq]
                    constructor <;> ring
                  · simp [hrvf]
              · have hq' : A q = 0 := by rwa [upd_ne _ _ _ _ hqq] at hq
                rcases h4 q r hq' hadj hrin with hrv | hrm
                · refine Or.inl ?_
                  by_cases hrq : r = q0
                  · subst hrq; exact upd_self _ _ _
                  · rw [upd_ne _ _ _ _ hrq]; exact hrv
                · rcases List.mem_cons.1 hrm with rfl | hrm2
                  · exact Or.inl (upd_self _ _ _)
                  · exact Or.inr (List.mem_append_left _ hrm2)
            · intro p hpv hpbg
              by_cases hpq : p = q0
              · subst hpq; exact upd_self _ _ _
              · rw [upd_ne _ _ _ _ hpq] at hpv
                rw [upd_ne _ _ _ _ hpq]
                exact h5 p hpv hpbg
            · intro p hp0
              by_cases hpq : p = q0
              · subst hpq; exact upd_self _ _ _
              · rw [upd_ne _ _ _ _ hpq] at hp0
                rw [upd_ne _ _ _ _ hpq]
                exact h6 p hp0
          · rw [floodLoop2, if_neg hv, if_pos hin, if_neg hbg]
            apply ih
            · have hlt := unvisited_upd_lt hin hvf
              omega
            · intro p hpv
              by_cases hpq : p = q0
              · subst hpq; exact hin
              · exact h2 p (by rwa [upd_ne _ _ _ _ hpq] at hpv)
            · intro p hpin hpb
              by_cases hpq : p = q0
              · subst hpq; exact Or.inl (upd_self _ _ _)
              · rcases h3 p hpin hpb with hpv | hpm
                · exact Or.inl (by rw [upd_ne _ _ _ _ hpq]; exact hpv)
                · rcases List.mem_cons.1 hpm with rfl | hpm2
                  · exact absurd rfl hpq
                  · exact Or.inr hpm2
            · intro q r hq hadj hrin
              rcases h4 q r hq hadj hrin with hrv | hrm
              · refine Or.inl ?_
                by_cases hrq : r = q0
                · subst hrq; exact upd_self _ _ _
                · rw [upd_ne _ _ _ _ hrq]; exact hrv
              · rcases List.mem_cons.1 hrm with rfl | hrm2
                · exact Or.inl (upd_self _ _ _)
                · exact Or.inr hrm2
            · intro p hpv hpbg
              by_cases hpq : p = q0
              · subst hpq; exact absurd hpbg hbg
              · exact h5 p (by rwa [upd_ne _ _ _ _ hpq] at hpv) hpbg
            · intro p hp0
              by_cases hpq : p = q0
              · subst hpq; exact upd_self _ _ _
              · rw [upd_ne _ _ _ _ hpq]
                exact h6 p hp0
        · rw [floodLoop2, if_neg hv, if_neg hin]
          apply ih rest V A (by omega) h2
          · intro p hpin hpb
            rcases h3 p hpin hpb with hpv | hpm
            · exact Or.inl hpv
            · rcases List.mem_cons.1 hpm with rfl | hpm2
              · exact absurd hpin hin
              · exact Or.inr hpm2
          · intro q r hq hadj hrin
            rcases h4 q r hq hadj hrin with hrv | hrm
            · exact Or.inl hrv
            · rcases List.mem_cons.1 hrm with rfl | hrm2
              · exact absurd hrin hin
              · exact Or.inr hrm2
          · exact h5
          · exact h6

/-! ### The flood-fill masks compute exactly border-reachability -/

lemma flood_fill_eq_reach (w h : Nat) (pix : Pos → Color) (bg : Color) (tol : Int)
    (p : Pos) :
    flood_fill_background w h pix bg tol p = 0 ↔ Reach w h pix bg tol p := by
  unfold flood_fill_background
  constructor
  · intro h0
    refine floodLoop_sound w h pix bg tol _ _ _ _ ?_ ?_ p h0
    · intro q hq; simp at hq
    · intro q hq _; exact Or.inl (seeds_border hq)
  · intro hr
    have hC := floodLoop_complete w h pix bg tol (8 * w * h + 2 * w + 2 * h) (seeds w h)
      (fun _ => false) (fun _ => 255)
      (by rw [unvisited_false, length_seeds, Nat.mul_comm h w, ← Nat.mul_assoc]; omega)
      (by intro q hq; simp at hq)
      (fun q hin hb => Or.inr (seeds_mem_of_border hin hb))
      (by intro q r hq; simp at hq)
      (by intro q hq; simp at hq)
      (by intro q hq; simp at hq)
    induction hr with
    | border q hin hb hbg => exact hC.1 q hin hb hbg
    | step q r hq hadj hrin hbg ihq => exact hC.2 q r ihq hadj hrin hbg

lemma flood_fill_v2_eq_reach (w h : Nat) (pix : Pos → Color) (bg : Color) (tol : Int)
    (p : Pos) :
    flood_fill_background_v2 w h pix bg tol p = 0 ↔ Reach w h pix bg tol p := by
  unfold flood_fill_background_v2
  constructor
  · intro h0
    refine floodLoop2_sound w h pix bg tol _ _ _ _ ?_ ?_ p h0
    · intro q hq; simp at hq
    · intro q hq _; exact Or.inl (seeds_border hq)
  · intro hr
    have hC := floodLoop2_complete w h pix bg tol (8 * w * h + 2 * w + 2 * h) (seeds w h)
      (fun _ => false) (fun _ => 255)
      (by rw [unvisited_false, length_seeds, Nat.mul_comm h w, ← Nat.mul_assoc]; omega)
      (by intro q hq; simp at hq)
      (fun q hin hb => Or.inr (seeds_mem_of_border hin hb))
      (by intro q r hq; simp at hq)
      (by intro q hq; simp at hq)
      (by intro q hq; simp at hq)
    induction hr with
    | border q hin hb hbg => exact hC.1 q hin hb hbg
    | step q r hq hadj hrin hbg ihq => exact hC.2 q r ihq hadj hrin hbg

lemma flood_fill_vals (w h : Nat) (pix : Pos → Color) (bg : Color) (tol : Int) (p : Pos) :
    flood_fill_background w h pix bg tol p = 0 ∨
      flood_fill_background w h pix bg tol p = 255 := by
  unfold flood_fill_background
  exact floodLoop_vals w h pix bg tol _ _ _ _ (fun q => Or.inr rfl) p

lemma flood_fill_v2_vals (w h : Nat) (pix : Pos → Color) (bg : Color) (tol : Int) (p : Pos) :
    flood_fill_background_v2 w h pix bg tol p = 0 ∨
      flood_fill_background_v2 w h pix bg tol p = 255 := by
  unfold flood_fill_background_v2
  exact floodLoop2_vals w h pix bg tol _ _ _ _ (fun q => Or.inr rfl) p

/-- A pixel the fill reached and marked transparent satisfies the background
test (a `Reach` node always carries its own `bgClose` certificate). -/
lemma reach_bgClose {w h : Nat} {pix : Pos → Color} {bg : Color} {tol : Int} {p : Pos}
    (hr : Reach w h pix bg tol p) : bgClose (pix p) bg tol = true := by
  cases hr with
  | border _ _ _ hbg => exact hbg
  | step _ _ _ _ _ hbg => exact hbg

lemma reach_inB {w h : Nat} {pix : Pos → Color} {bg : Color} {tol : Int} {p : Pos}
    (hr : Reach w h pix bg tol p) : InB w h p := by
  cases hr with
  | border _ hin _ _ => exact hin
  | step _ _ _ _ hin _ => exact hin

lemma bgClose_iff {c bg : Color} {tol : Int} :
    bgClose c bg tol = true ↔ 0 ≤ tol ∧ dist2 c bg ≤ tol * tol := by
  simp [bgClose]

/-! ### Image buffers and the rest of the pipeline -/

/-- An RGBA pixel sample (the alpha entry is meaningful only when the owning
buffer's mode carries an alpha channel). -/
structure Pix where
  r : Nat
  g : Nat
  b : Nat
  a : Nat
deriving DecidableEq, Repr

/-- A 2-D image buffer (a PIL `Image`): dimensions, whether the mode carries
an alpha channel, and O(1) pixel access. -/
@[ext]
structure Img where
  width : Nat
  height : Nat
  hasAlpha : Bool
  pix : Nat → Nat → Pix

/-- The RGB samples of a buffer as the flood fill reads them
(`pixel[:3]` in v1, the `len(pixel) == 4` truncation in v2). -/
def rgbAt (img : Img) : Pos → Color := fun p =>
  ⟨(img.pix p.1.toNat p.2.toNat).r, (img.pix p.1.toNat p.2.toNat).g,
    (img.pix p.1.toNat p.2.toNat).b⟩

/-- `get_background_color` of `extract_keyboards.py`: per-channel integer
average (`sum // 4`) of the corner samples at `(5, 5)`, `(width-6, 5)`,
`(5, height-6)` and `(width-6, height-6)`. -/
def get_background_color (img : Img) : Color :=
  ⟨((img.pix 5 5).r + (img.pix (img.width - 6) 5).r + (img.pix 5 (img.height - 6)).r +
      (img.pix (img.width - 6) (img.height - 6)).r) / 4,
    ((img.pix 5 5).g + (img.pix (img.width - 6) 5).g + (img.pix 5 (img.height - 6)).g +
      (img.pix (img.width - 6) (img.height - 6)).g) / 4,
    ((img.pix 5 5).b + (img.pix (img.width - 6) 5).b + (img.pix 5 (img.height - 6)).b +
      (img.pix (img.width - 6) (img.height - 6)).b) / 4⟩

/-- `get_background_color` of `extract_keyboards_v2.py`: the same averaging,
with far-edge samples at offset `width-5` / `height-5`. -/
def get_background_color_v2 (img : Img) : Color :=
  ⟨((img.pix 5 5).r + (img.pix (img.width - 5) 5).r + (img.pix 5 (img.height - 5)).r +
      (img.pix (img.width - 5) (img.height - 5)).r) / 4,
    ((img.pix 5 5).g + (img.pix (img.width - 5) 5).g + (img.pix 5 (img.height - 5)).g +
      (img.pix (img.width - 5) (img.height - 5)).g) / 4,
    ((img.pix 5 5).b + (img.pix (img.width - 5) 5).b + (img.pix 5 (img.height - 5)).b +
      (img.pix (img.width - 5) (img.height - 5)).b) / 4⟩

/-- `apply_alpha_mask` of `extract_keyboards.py`: an RGBA buffer whose RGB
channels come from the source (`pixel[:3]`, any source alpha discarded) and
whose alpha channel is the mask value `alpha[y][x]`. -/
def apply_alpha_mask (img : Img) (alpha : Pos → Nat) : Img :=
  { width := img.width, height := img.height, hasAlpha := true,
    pix := fun x y => ⟨(img.pix x y).r, (img.pix x y).g, (img.pix x y).b,
      alpha ((x : Int), (y : Int))⟩ }

/-- `apply_alpha_mask` of `extract_keyboards_v2.py`: convert to RGB (dropping
any original alpha), then `putalpha(alpha)`; pointwise the same RGBA output. -/
def apply_alpha_mask_v2 (img : Img) (alpha : Pos → Nat) : Img :=
  { width := img.width, height := img.height, hasAlpha := true,
    pix := fun x y => ⟨(img.pix x y).r, (img.pix x y).g, (img.pix x y).b,
      alpha ((x : Int), (y : Int))⟩ }

/-- Does column `x` hold a pixel with nonzero alpha? -/
def colOpaque (img : Img) (x : Nat) : Bool :=
  (List.range img.height).any fun y => (img.pix x y).a != 0

/-- Does row `y` hold a pixel with nonzero alpha? -/
def rowOpaque (img : Img) (y : Nat) : Bool :=
  (List.range img.width).any fun x => (img.pix x y).a != 0

/-- PIL `Image.getbbox()` on an RGBA buffer (default `alpha_only`): the
bounding box `(left, top, right, bottom)` of the pixels with nonzero alpha,
`right`/`bottom` exclusive, or `none` when every pixel is transparent. -/
def getbbox (img : Img) : Option (Nat × Nat × Nat × Nat) :=
  match (List.range img.width).find? (colOpaque img) with
  | none => none
  | some l =>
    match (List.range img.height).find? (rowOpaque img) with
    | none => none
    | some t =>
      match (List.range img.width).reverse.find? (colOpaque img) with
      | none => none
      | some xr =>
        match (List.range img.height).reverse.find? (rowOpaque img) with
        | none => none
        | some yb => some (l, t, xr + 1, yb + 1)

/-- PIL `Image.crop((l, t, r, b))` for a box inside the buffer. -/
def cropBox (img : Img) (l t r b : Nat) : Img :=
  { width := r - l, height := b - t, hasAlpha := img.hasAlpha,
    pix := fun x y => img.pix (l + x) (t + y) }

/-- `crop_to_content` (identical in both scripts): crop to the bounding box
of non-transparent pixels expanded by `padding` and clamped to the buffer;
`max(0, l - padding)` is Nat truncated subtraction here. When no pixel is
opaque (`bbox is None`) the buffer is returned unchanged. -/
def crop_to_content (img : Img) (padding : Nat) : Img :=
  match getbbox img with
  | none => img
  | some (l, t, r, b) =>
    cropBox img (l - padding) (t - padding) (min img.width (r + padding))
      (min img.height (b + padding))

/-- Python `int(...)` on an exact value: truncation toward zero. -/
def ratTrunc (q : ℚ) : Int := q.num.tdiv (q.den : Int)

/-- Available span after removing the canvas padding on both sides
(`target_width - padding * 2`, exact integer arithmetic). -/
def availSpan (target pad : Nat) : Int := (target : Int) - 2 * (pad : Int)

/-- The specification's exact-rational reading of the scale formula
`min(available_width / w, available_height / h)`. The program computes this
in binary64 floating point — see `fitScaleF` — and the two can differ; this
definition is kept only to compare the program against the stated formula. -/
def fitScale (w h tw th pad : Nat) : ℚ :=
  min ((availSpan tw pad : ℚ) / (w : ℚ)) ((availSpan th pad : ℚ) / (h : ℚ))

/-- Exact-rational reading of `new_width = int(img.width * scale)`
(comparison value only; the program's computation is `fitNewWF`). -/
def fitNewW (w h tw th pad : Nat) : Int := ratTrunc ((w : ℚ) * fitScale w h tw th pad)

/-- Exact-rational reading of `new_height = int(img.height * scale)`
(comparison value only; the program's computation is `fitNewHF`). -/
def fitNewH (w h tw th pad : Nat) : Int := ratTrunc ((h : ℚ) * fitScale w h tw th pad)

/-- `(target_width - new_width) // 2` over the exact-rational width
(comparison value only). -/
def fitOffX (w h tw th pad : Nat) : Int :=
  ((tw : Int) - fitNewW w h tw th pad).fdiv 2

/-- `(target_height - new_height) // 2` over the exact-rational height
(comparison value only). -/
def fitOffY (w h tw th pad : Nat) : Int :=
  ((th : Int) - fitNewH w h tw th pad).fdiv 2

/-- Round a rational to the nearest integer, ties to even. -/
def rnde (s : ℚ) : Int :=
  if s - (⌊s⌋ : ℚ) < 1 / 2 then ⌊s⌋
  else if 1 / 2 < s - (⌊s⌋ : ℚ) then ⌊s⌋ + 1
  else if ⌊s⌋ % 2 = 0 then ⌊s⌋ else ⌊s⌋ + 1

/-- Round-to-nearest, ties-to-even, at 53 significand bits: the result of one
correctly rounded IEEE-754 binary64 operation whose exact value is `q`.
`Int.log 2 q` is the binade exponent, so the representable values around `q`
are the multiples of `2^(log - 52)`. Valid for the magnitudes this pipeline
handles (far from binary64 overflow and subnormals; conversions of the
scripts' integer dimensions to float are exact below `2^53`). -/
def fl53 (q : ℚ) : ℚ :=
  if q ≤ 0 then 0
  else (rnde (q * (2 : ℚ) ^ ((52 : Int) - Int.log 2 q)) : ℚ) *
    (2 : ℚ) ^ (Int.log 2 q - 52)

/-- `scale = min(available_width / w, available_height / h)` as the program
computes it: two correctly rounded binary64 divisions (CPython's int/int
true division is correctly rounded), then Python's `min`, an exact
comparison of the two rounded values. -/
def fitScaleF (w h tw th pad : Nat) : ℚ :=
  min (fl53 ((availSpan tw pad : ℚ) / (w : ℚ)))
    (fl53 ((availSpan th pad : ℚ) / (h : ℚ)))

/-- `new_width = int(img.width * scale)` as the program computes it: the
int·float product is one correctly rounded binary64 multiplication, then
`int()` truncates toward zero. -/
def fitNewWF (w h tw th pad : Nat) : Int :=
  ratTrunc (fl53 ((w : ℚ) * fitScaleF w h tw th pad))

/-- `new_height = int(img.height * scale)` as the program computes it. -/
def fitNewHF (w h tw th pad : Nat) : Int :=
  ratTrunc (fl53 ((h : ℚ) * fitScaleF w h tw th pad))

/-- `x = (target_width - new_width) // 2` (exact Python integer floor
division on the program's `new_width`). -/
def fitOffXF (w h tw th pad : Nat) : Int :=
  ((tw : Int) - fitNewWF w h tw th pad).fdiv 2

/-- `y = (target_height - new_height) // 2`. -/
def fitOffYF (w h tw th pad : Nat) : Int :=
  ((th : Int) - fitNewHF w h tw th pad).fdiv 2

/-- `fit_to_canvas` (identical in both scripts up to the default padding):
resize the buffer to `(new_width, new_height)` — LANCZOS resampling of pixel
values is abstracted as the `resample` argument — and paste it at the
centering offsets onto a fully transparent canvas of the target size. -/
def fit_to_canvas (img : Img) (tw th pad : Nat)
    (resample : Img → Nat → Nat → Nat → Nat → Pix) : Img :=
  { width := tw, height := th, hasAlpha := true,
    pix := fun px py =>
      if fitOffXF img.width img.height tw th pad ≤ (px : Int) ∧
          (px : Int) < fitOffXF img.width img.height tw th pad +
            fitNewWF img.width img.height tw th pad ∧
          fitOffYF img.width img.height tw th pad ≤ (py : Int) ∧
          (py : Int) < fitOffYF img.width img.height tw th pad +
            fitNewHF img.width img.height tw th pad then
        resample img (fitNewWF img.width img.height tw th pad).toNat
          (fitNewHF img.width img.height tw th pad).toNat
          ((px : Int) - fitOffXF img.width img.height tw th pad).toNat
          ((py : Int) - fitOffYF img.width img.height tw th pad).toNat
      else ⟨0, 0, 0, 0⟩ }

/-- `extract_keyboard_with_transparency` of `extract_keyboards.py`:
flood fill, apply the mask, crop to content with the default padding 2. -/
def extract_keyboard_with_transparency (img : Img) (bg : Color) (tol : Int) : Img :=
  crop_to_content
    (apply_alpha_mask img
      (flood_fill_background img.width img.height (rgbAt img) bg tol)) 2

/-! ### Locating bounding-box edges: `find?` over `List.range` -/

lemma range_find_eq_some {p : Nat → Bool} {k : Nat} (hp : p k = true)
    (hmin : ∀ j, j < k → p j = false) :
    ∀ w, k < w → (List.range w).find? p = some k := by
  intro w
  induction w with
  | zero => intro hlt; omega
  | succ n ih =>
    intro hk
    rw [List.range_succ, List.find?_append]
    by_cases hkn : k < n
    · rw [ih hkn]
      rfl
    · have hk2 : n = k := by omega
      subst hk2
      have hnone : (List.range n).find? p = none :=
        List.find?_eq_none.2 fun x hx => by simp [hmin x (List.mem_range.1 hx)]
      rw [hnone, Option.none_or, List.find?_cons_of_pos]
      exact hp

lemma range_rev_find_eq_some {p : Nat → Bool} {k : Nat} (hp : p k = true) :
    ∀ w, k < w → (∀ j, k < j → j < w → p j = false) →
      (List.range w).reverse.find? p = some k := by
  intro w
  induction w with
  | zero => intro hlt _; omega
  | succ n ih =>
    intro hk hmax
    have hrev : (List.range (n + 1)).reverse = n :: (List.range n).reverse := by
      rw [List.range_succ]; simp
    rw [hrev]
    by_cases hkn : k = n
    · subst hkn
      rw [List.find?_cons_of_pos]
      exact hp
    · rw [List.find?_cons_of_neg]
      · exact ih (by omega) fun j h1 h2 => hmax j h1 (by omega)
      · simp [hmax n (by omega) (by omega)]

lemma range_find_min {p : Nat → Bool} :
    ∀ {w k : Nat}, (List.range w).find? p = some k → ∀ j, j < k → p j = false := by
  intro w
  induction w with
  | zero => intro k hfind; rw [List.range_zero] at hfind; cases hfind
  | succ n ih =>
    intro k hfind j hj
    rw [List.range_succ, List.find?_append] at hfind
    cases hfn : (List.range n).find? p with
    | some m =>
      rw [hfn] at hfind
      have hmk : m = k := by simpa using hfind
      subst hmk
      exact ih hfn j hj
    | none =>
      rw [hfn, Option.none_or] at hfind
      have hkn : k = n := by
        have := List.mem_of_find?_eq_some hfind
        simpa using this
      subst hkn
      have := List.find?_eq_none.1 hfn j (List.mem_range.2 (by omega))
      simpa using this

lemma range_rev_find_max {p : Nat → Bool} :
    ∀ {w k : Nat}, (List.range w).reverse.find? p = some k →
      ∀ j, k < j → j < w → p j = false := by
  intro w
  induction w with
  | zero => intro k hfind j hkj hjw; omega
  | succ n ih =>
    intro k hfind j hkj hjw
    have hrev : (List.range (n + 1)).reverse = n :: (List.range n).reverse := by
      rw [List.range_succ]; simp
    rw [hrev] at hfind
    by_cases hpn : p n = true
    · rw [List.find?_cons_of_pos _ hpn] at hfind
      have hkn : n = k := by simpa using hfind
      omega
    · rw [List.find?_cons_of_neg] at hfind
      · by_cases hjn : j = n
        · subst hjn; simpa using hpn
        · exact ih hfind j hkj (by omega)
      · simpa using hpn

lemma colOpaque_iff {img : Img} {x : Nat} :
    colOpaque img x = true ↔ ∃ y, y < img.height ∧ (img.pix x y).a ≠ 0 := by
  simp [colOpaque, List.any_eq_true, List.mem_range]

lemma rowOpaque_iff {img : Img} {y : Nat} :
    rowOpaque img y = true ↔ ∃ x, x < img.width ∧ (img.pix x y).a ≠ 0 := by
  simp [rowOpaque, List.any_eq_true, List.mem_range]

lemma colOpaque_false {img : Img} {x : Nat}
    (h : ∀ y, y < img.height → (img.pix x y).a = 0) : colOpaque img x = false := by
  rw [← Bool.not_eq_true, colOpaque_iff]
  rintro ⟨y, hy, hne⟩
  exact hne (h y hy)

lemma rowOpaque_false {img : Img} {y : Nat}
    (h : ∀ x, x < img.width → (img.pix x y).a = 0) : rowOpaque img y = false := by
  rw [← Bool.not_eq_true, rowOpaque_iff]
  rintro ⟨x, hx, hne⟩
  exact hne (h x hx)

/-- `getbbox` on a fully transparent buffer is `None`. -/
lemma getbbox_of_transparent {img : Img}
    (h : ∀ x, x < img.width → ∀ y, y < img.height → (img.pix x y).a = 0) :
    getbbox img = none := by
  have hcol : (List.range img.width).find? (colOpaque img) = none := by
    refine List.find?_eq_none.2 fun x hx => ?_
    rw [List.mem_range] at hx
    simp [colOpaque_false fun y hy => h x hx y hy]
  rw [getbbox, hcol]

/-- Constructing `getbbox` from the four extreme opaque rows/columns. -/
lemma getbbox_intro (img : Img) (l t xr yb : Nat)
    (hl : l < img.width) (hcl : colOpaque img l = true)
    (hminl : ∀ j, j < l → colOpaque img j = false)
    (ht : t < img.height) (hrt : rowOpaque img t = true)
    (hmint : ∀ j, j < t → rowOpaque img j = false)
    (hxr : xr < img.width) (hcxr : colOpaque img xr = true)
    (hmaxx : ∀ j, xr < j → j < img.width → colOpaque img j = false)
    (hyb : yb < img.height) (hryb : rowOpaque img yb = true)
    (hmaxy : ∀ j, yb < j → j < img.height → rowOpaque img j = false) :
    getbbox img = some (l, t, xr + 1, yb + 1) := by
  rw [getbbox, range_find_eq_some hcl hminl _ hl, range_find_eq_some hrt hmint _ ht,
    range_rev_find_eq_some hcxr _ hxr hmaxx, range_rev_find_eq_some hryb _ hyb hmaxy]

/-- Destructing `getbbox`: the box edges are extreme opaque rows/columns. -/
lemma getbbox_elim {img : Img} {l t r b : Nat} (h : getbbox img = some (l, t, r, b)) :
    l < img.width ∧ colOpaque img l = true ∧ (∀ j, j < l → colOpaque img j = false) ∧
      t < img.height ∧ rowOpaque img t = true ∧ (∀ j, j < t → rowOpaque img j = false) ∧
      l < r ∧ r ≤ img.width ∧ colOpaque img (r - 1) = true ∧
        (∀ j, r - 1 < j → j < img.width → colOpaque img j = false) ∧
      t < b ∧ b ≤ img.height ∧ rowOpaque img (b - 1) = true ∧
        (∀ j, b - 1 < j → j < img.height → rowOpaque img j = false) := by
  rw [getbbox] at h
  cases h1 : (List.range img.width).find? (colOpaque img) with
  | none => rw [h1] at h; cases h
  | some l' =>
    rw [h1] at h
    cases h2 : (List.range img.height).find? (rowOpaque img) with
    | none => rw [h2] at h; cases h
    | some t' =>
      rw [h2] at h
      cases h3 : (List.range img.width).reverse.find? (colOpaque img) with
      | none => rw [h3] at h; cases h
      | some xr =>
        rw [h3] at h
        cases h4 : (List.range img.height).reverse.find? (rowOpaque img) with
        | none => rw [h4] at h; cases h
        | some yb =>
          rw [h4] at h
          simp only [Option.some.injEq, Prod.mk.injEq] at h
          obtain ⟨e1, e2, e3, e4⟩ := h
          subst e1
          subst e2
          subst e3
          subst e4
          have hlw : l' < img.width := by
            simpa using List.mem_of_find?_eq_some h1
          have hth : t' < img.height := by
            simpa using List.mem_of_find?_eq_some h2
          have hxw : xr < img.width := by
            have := List.mem_of_find?_eq_some h3
            rw [List.mem_reverse] at this
            simpa using this
          have hyh : yb < img.height := by
            have := List.mem_of_find?_eq_some h4
            rw [List.mem_reverse] at this
            simpa using this
          have hcl := List.find?_some h1
          have hrt := List.find?_some h2
          have hcxr := List.find?_some h3
          have hryb := List.find?_some h4
          have hlxr : l' ≤ xr := by
            by_contra hc
            have := range_find_min h1 xr (by omega)
            rw [this] at hcxr
            cases hcxr
          have htyb : t' ≤ yb := by
            by_contra hc
            have := range_find_min h2 yb (by omega)
            rw [this] at hryb
            cases hryb
          refine ⟨hlw, hcl, range_find_min h1, hth, hrt, range_find_min h2,
            by omega, by omega, ?_, ?_, by omega, by omega, ?_, ?_⟩
          · simpa using hcxr
          · intro j hj hjw
            exact range_rev_find_max h3 j (by omega) hjw
          · simpa using hryb
          · intro j hj hjh
            exact range_rev_find_max h4 j (by omega) hjh

/-! ### Content cropping: empty-mask fallback and idempotence -/

/-- Cropping at padding 0 returns a buffer whose bounding box is already the
full extent unchanged. -/
lemma crop_tight (img : Img)
    (hbb : getbbox img = some (0, 0, img.width, img.height)) :
    crop_to_content img 0 = img := by
  rw [crop_to_content, hbb]
  refine Img.ext ?_ ?_ ?_ ?_
  · simp [cropBox]
  · simp [cropBox]
  · simp [cropBox]
  · funext x y
    simp [cropBox]

/-- The bounding box of the tight crop of a buffer is its full extent. -/
lemma getbbox_cropBox {img : Img} {l t r b : Nat}
    (hbb : getbbox img = some (l, t, r, b)) :
    getbbox (cropBox img l t r b) = some (0, 0, r - l, b - t) := by
  obtain ⟨hlw, hcl, hminl, hth, hrt, hmint, hlr, hrw, hcxr, hmaxx, htb, hbh, hryb, hmaxy⟩ :=
    getbbox_elim hbb
  have hc0 : colOpaque (cropBox img l t r b) 0 = true := by
    obtain ⟨y, hy, hne⟩ := colOpaque_iff.1 hcl
    have hty : t ≤ y := by
      by_contra hc
      have hrow : rowOpaque img y = true := rowOpaque_iff.2 ⟨l, hlw, hne⟩
      rw [hmint y (by omega)] at hrow
      cases hrow
    have hyb : y ≤ b - 1 := by
      by_contra hc
      have hrow : rowOpaque img y = true := rowOpaque_iff.2 ⟨l, hlw, hne⟩
      rw [hmaxy y (by omega) hy] at hrow
      cases hrow
    refine colOpaque_iff.2 ⟨y - t, by simp [cropBox]; omega, ?_⟩
    have he : t + (y - t) = y := by omega
    simp only [cropBox, Nat.add_zero, he]
    exact hne
  have hcmax : colOpaque (cropBox img l t r b) (r - l - 1) = true := by
    obtain ⟨y, hy, hne⟩ := colOpaque_iff.1 hcxr
    have hty : t ≤ y := by
      by_contra hc
      have hrow : rowOpaque img y = true := rowOpaque_iff.2 ⟨r - 1, by omega, hne⟩
      rw [hmint y (by omega)] at hrow
      cases hrow
    have hyb : y ≤ b - 1 := by
      by_contra hc
      have hrow : rowOpaque img y = true := rowOpaque_iff.2 ⟨r - 1, by omega, hne⟩
      rw [hmaxy y (by omega) hy] at hrow
      cases hrow
    refine colOpaque_iff.2 ⟨y - t, by simp [cropBox]; omega, ?_⟩
    have he : t + (y - t) = y := by omega
    have hx : l + (r - l - 1) = r - 1 := by omega
    simp only [cropBox, hx, he]
    exact hne
  have hr0 : rowOpaque (cropBox img l t r b) 0 = true := by
    obtain ⟨x, hx, hne⟩ := rowOpaque_iff.1 hrt
    have hlx : l ≤ x := by
      by_contra hc
      have hcol : colOpaque img x = true := colOpaque_iff.2 ⟨t, hth, hne⟩
      rw [hminl x (by omega)] at hcol
      cases hcol
    have hxr2 : x ≤ r - 1 := by
      by_contra hc
      have hcol : colOpaque img x = true := colOpaque_iff.2 ⟨t, hth, hne⟩
      rw [hmaxx x (by omega) hx] at hcol
      cases hcol
    refine rowOpaque_iff.2 ⟨x - l, by simp [cropBox]; omega, ?_⟩
    have he : l + (x - l) = x := by omega
    simp only [cropBox, Nat.add_zero, he]
    exact hne
  have hrmax : rowOpaque (cropBox img l t r b) (b - t - 1) = true := by
    obtain ⟨x, hx, hne⟩ := rowOpaque_iff.1 hryb
    have hlx : l ≤ x := by
      by_contra hc
      have hcol : colOpaque img x = true := colOpaque_iff.2 ⟨b - 1, by omega, hne⟩
      rw [hminl x (by omega)] at hcol
      cases hcol
    have hxr2 : x ≤ r - 1 := by
      by_contra hc
      have hcol : colOpaque img x = true := colOpaque_iff.2 ⟨b - 1, by omega, hne⟩
      rw [hmaxx x (by omega) hx] at hcol
      cases hcol
    refine rowOpaque_iff.2 ⟨x - l, by simp [cropBox]; omega, ?_⟩
    have he : l + (x - l) = x := by omega
    have hy : t + (b - t - 1) = b - 1 := by omega
    simp only [cropBox, hy, he]
    exact hne
  have hwc : (cropBox img l t r b).width = r - l := rfl
  have hhc : (cropBox img l t r b).height = b - t := rfl
  have hres := getbbox_intro (cropBox img l t r b) 0 0 (r - l - 1) (b - t - 1)
    (by rw [hwc]; omega) hc0 (fun j hj => by omega)
    (by rw [hhc]; omega) hr0 (fun j hj => by omega)
    (by rw [hwc]; omega) hcmax (fun j h1 h2 => by rw [hwc] at h2; omega)
    (by rw [hhc]; omega) hrmax (fun j h1 h2 => by rw [hhc] at h2; omega)
  rw [hres]
  have e1 : r - l - 1 + 1 = r - l := by omega
  have e2 : b - t - 1 + 1 = b - t := by omega
  rw [e1, e2]

/-- C5: given a buffer in which no pixel is opaque (every alpha is 0), the
Content Cropper returns the original buffer unchanged, for any padding. -/
theorem claim_C5 (img : Img) (padding : Nat)
    (h : ∀ x, x < img.width → ∀ y, y < img.height → (img.pix x y).a = 0) :
    crop_to_content img padding = img := by
  rw [crop_to_content, getbbox_of_transparent h]

/-- Witness for C5 on a concrete fully transparent 2×2 buffer, padding 3. -/
theorem claim_C5_witness :
    (∀ x, x < (2 : Nat) → ∀ y, y < (2 : Nat) →
      ((⟨2, 2, true, fun _ _ => ⟨7, 8, 9, 0⟩⟩ : Img).pix x y).a = 0) ∧
    crop_to_content (⟨2, 2, true, fun _ _ => ⟨7, 8, 9, 0⟩⟩ : Img) 3 =
      (⟨2, 2, true, fun _ _ => ⟨7, 8, 9, 0⟩⟩ : Img) :=
  ⟨by decide, claim_C5 _ 3 (by decide)⟩

/-- C9: the Content Cropper is idempotent at padding 0: a buffer already
tightly cropped to its content bounding box (the bbox is the full extent)
comes back identical, and cropping twice with padding 0 equals cropping
once, on every buffer. -/
theorem claim_C9 (img : Img) :
    (getbbox img = some (0, 0, img.width, img.height) → crop_to_content img 0 = img) ∧
    crop_to_content (crop_to_content img 0) 0 = crop_to_content img 0 := by
  refine ⟨crop_tight img, ?_⟩
  cases hbb : getbbox img with
  | none =>
    have hid : crop_to_content img 0 = img := by rw [crop_to_content, hbb]
    rw [hid]
    exact hid
  | some box =>
    obtain ⟨l, t, r, b⟩ := box
    obtain ⟨-, -, -, -, -, -, -, hrw, -, -, -, hbh, -, -⟩ := getbbox_elim hbb
    have hcc : crop_to_content img 0 = cropBox img l t r b := by
      rw [crop_to_content, hbb]
      have hminr : min img.width (r + 0) = r := by omega
      have hminb : min img.height (b + 0) = b := by omega
      simp only [Nat.sub_zero, hminr, hminb]
    rw [hcc]
    exact crop_tight _ (getbbox_cropBox hbb)

/-- Witness for C9 on a concrete 1×1 opaque buffer. -/
theorem claim_C9_witness :
    getbbox (⟨1, 1, true, fun _ _ => ⟨1, 2, 3, 255⟩⟩ : Img) = some (0, 0, 1, 1) ∧
    crop_to_content (⟨1, 1, true, fun _ _ => ⟨1, 2, 3, 255⟩⟩ : Img) 0 =
      (⟨1, 1, true, fun _ _ => ⟨1, 2, 3, 255⟩⟩ : Img) :=
  ⟨by decide, (claim_C9 _).1 (by decide)⟩

/-! ### The Alpha Compositor claims -/

/-- The compositor contract exactly as the specification words it: RGB
channels preserved; alpha 0 where the mask marks background; on foreground
pixels alpha 255 — or, when the source buffer already carried an alpha
channel, that original alpha value untouched. -/
def AlphaSpecClaim (img : Img) (alpha : Pos → Nat) : Prop :=
  ∀ x, x < img.width → ∀ y, y < img.height →
    ((apply_alpha_mask img alpha).pix x y).r = (img.pix x y).r ∧
    ((apply_alpha_mask img alpha).pix x y).g = (img.pix x y).g ∧
    ((apply_alpha_mask img alpha).pix x y).b = (img.pix x y).b ∧
    ((apply_alpha_mask img alpha).pix x y).a =
      (if alpha ((x : Int), (y : Int)) = 0 then 0
        else if img.hasAlpha then (img.pix x y).a else 255)

/-- C6 counterexample: a 1×1 RGBA source with original alpha 128 under an
opaque (255) mask comes out with alpha 255, not the original 128 — the
"original alpha untouched" clause fails on the code. -/
theorem claim_C6_counterexample :
    ¬ AlphaSpecClaim ⟨1, 1, true, fun _ _ => ⟨10, 20, 30, 128⟩⟩ (fun _ => 255) := by
  intro hcl
  have hc := (hcl 0 (by decide) 0 (by decide)).2.2.2
  simp [apply_alpha_mask] at hc

/-- C6 (amended): for every buffer and binary mask, the compositor preserves
all RGB channels and sets the alpha channel to the mask value — 0 exactly
where the mask marks background, 255 on foreground — discarding any alpha
the source carried; the v2 compositor produces the identical buffer. -/
theorem claim_C6 (img : Img) (alpha : Pos → Nat)
    (hbin : ∀ p, alpha p = 0 ∨ alpha p = 255) (x y : Nat)
    (hx : x < img.width) (hy : y < img.height) :
    ((apply_alpha_mask img alpha).pix x y).r = (img.pix x y).r ∧
    ((apply_alpha_mask img alpha).pix x y).g = (img.pix x y).g ∧
    ((apply_alpha_mask img alpha).pix x y).b = (img.pix x y).b ∧
    ((apply_alpha_mask img alpha).pix x y).a =
      (if alpha ((x : Int), (y : Int)) = 0 then 0 else 255) ∧
    apply_alpha_mask_v2 img alpha = apply_alpha_mask img alpha := by
  refine ⟨rfl, rfl, rfl, ?_, rfl⟩
  rcases hbin ((x : Int), (y : Int)) with h0 | h255
  · simp [apply_alpha_mask, h0]
  · simp [apply_alpha_mask, h255]

/-- Witness for the amended C6 on a concrete 1×1 buffer with a background
mask. -/
theorem claim_C6_witness :
    (∀ p : Pos, ((fun _ => 0 : Pos → Nat) p = 0) ∨ ((fun _ => 0 : Pos → Nat) p = 255)) ∧
    (0 : Nat) < 1 ∧
    ((apply_alpha_mask ⟨1, 1, false, fun _ _ => ⟨10, 20, 30, 0⟩⟩ (fun _ => 0)).pix 0 0).a =
      (if (fun _ => 0 : Pos → Nat) ((0 : Int), (0 : Int)) = 0 then 0 else 255) :=
  ⟨fun _ => Or.inl rfl, by omega,
    (claim_C6 ⟨1, 1, false, fun _ _ => ⟨10, 20, 30, 0⟩⟩ (fun _ => 0)
      (fun _ => Or.inl rfl) 0 0 (by decide) (by decide)).2.2.2.1⟩

/-! ### The Background Sampler claim -/

/-- C8: on buffers of size at least 10×10 all corner samples are in bounds
(v1 samples columns 5 and width−6 and rows 5 and height−6; v2 samples
columns 5 and width−5 and rows 5 and height−5), and both samplers return
the per-channel integer average (floor of the sum over 4) of their four
corner samples. -/
theorem claim_C8 (img : Img) (hw : 10 ≤ img.width) (hh : 10 ≤ img.height) :
    (5 < img.width ∧ img.width - 6 < img.width ∧ 5 < img.height ∧
      img.height - 6 < img.height ∧ img.width - 5 < img.width ∧
      img.height - 5 < img.height) ∧
    get_background_color img =
      ⟨[(img.pix 5 5).r, (img.pix (img.width - 6) 5).r, (img.pix 5 (img.height - 6)).r,
          (img.pix (img.width - 6) (img.height - 6)).r].sum / 4,
        [(img.pix 5 5).g, (img.pix (img.width - 6) 5).g, (img.pix 5 (img.height - 6)).g,
          (img.pix (img.width - 6) (img.height - 6)).g].sum / 4,
        [(img.pix 5 5).b, (img.pix (img.width - 6) 5).b, (img.pix 5 (img.height - 6)).b,
          (img.pix (img.width - 6) (img.height - 6)).b].sum / 4⟩ ∧
    get_background_color_v2 img =
      ⟨[(img.pix 5 5).r, (img.pix (img.width - 5) 5).r, (img.pix 5 (img.height - 5)).r,
          (img.pix (img.width - 5) (img.height - 5)).r].sum / 4,
        [(img.pix 5 5).g, (img.pix (img.width - 5) 5).g, (img.pix 5 (img.height - 5)).g,
          (img.pix (img.width - 5) (img.height - 5)).g].sum / 4,
        [(img.pix 5 5).b, (img.pix (img.width - 5) 5).b, (img.pix 5 (img.height - 5)).b,
          (img.pix (img.width - 5) (img.height - 5)).b].sum / 4⟩ := by
  refine ⟨⟨by omega, by omega, by omega, by omega, by omega, by omega⟩, ?_, ?_⟩
  · simp only [get_background_color, List.sum_cons, List.sum_nil, Color.mk.injEq]
    refine ⟨?_, ?_, ?_⟩ <;> omega
  · simp only [get_background_color_v2, List.sum_cons, List.sum_nil, Color.mk.injEq]
    refine ⟨?_, ?_, ?_⟩ <;> omega

/-- Witness for C8 on a concrete 10×10 buffer. -/
theorem claim_C8_witness :
    (10 ≤ (10 : Nat)) ∧
    get_background_color (⟨10, 10, false, fun x y => ⟨x + y, 2 * x, 3 * y, 0⟩⟩ : Img) =
      ⟨[((⟨10, 10, false, fun x y => ⟨x + y, 2 * x, 3 * y, 0⟩⟩ : Img).pix 5 5).r,
          ((⟨10, 10, false, fun x y => ⟨x + y, 2 * x, 3 * y, 0⟩⟩ : Img).pix 4 5).r,
          ((⟨10, 10, false, fun x y => ⟨x + y, 2 * x, 3 * y, 0⟩⟩ : Img).pix 5 4).r,
          ((⟨10, 10, false, fun x y => ⟨x + y, 2 * x, 3 * y, 0⟩⟩ : Img).pix 4 4).r].sum / 4,
        [((⟨10, 10, false, fun x y => ⟨x + y, 2 * x, 3 * y, 0⟩⟩ : Img).pix 5 5).g,
          ((⟨10, 10, false, fun x y => ⟨x + y, 2 * x, 3 * y, 0⟩⟩ : Img).pix 4 5).g,
          ((⟨10, 10, false, fun x y => ⟨x + y, 2 * x, 3 * y, 0⟩⟩ : Img).pix 5 4).g,
          ((⟨10, 10, false, fun x y => ⟨x + y, 2 * x, 3 * y, 0⟩⟩ : Img).pix 4 4).g].sum / 4,
        [((⟨10, 10, false, fun x y => ⟨x + y, 2 * x, 3 * y, 0⟩⟩ : Img).pix 5 5).b,
          ((⟨10, 10, false, fun x y => ⟨x + y, 2 * x, 3 * y, 0⟩⟩ : Img).pix 4 5).b,
          ((⟨10, 10, false, fun x y => ⟨x + y, 2 * x, 3 * y, 0⟩⟩ : Img).pix 5 4).b,
          ((⟨10, 10, false, fun x y => ⟨x + y, 2 * x, 3 * y, 0⟩⟩ : Img).pix 4 4).b].sum / 4⟩ :=
  ⟨by omega,
    (claim_C8 ⟨10, 10, false, fun x y => ⟨x + y, 2 * x, 3 * y, 0⟩⟩
      (by decide) (by decide)).2.1⟩

/-! ### The Segmenter claims -/

/-- C1: the Segmenter marks transparent exactly the pixels of the region
that are connected to some border pixel by an 8-connected path consisting
entirely of pixels whose RGB distance to the background is at most the
tolerance (`Reach`); in particular a pixel whose color equals the background
exactly is transparent whenever such a path exists, and a pixel with no such
path (e.g. background enclosed by foreground) stays opaque (255). Both
implementations are covered. -/
theorem claim_C1 (w h : Nat) (pix : Pos → Color) (bg : Color) (tol : Int) (p : Pos)
    (hp : InB w h p) :
    (flood_fill_background w h pix bg tol p = 0 ↔ Reach w h pix bg tol p) ∧
    (flood_fill_background_v2 w h pix bg tol p = 0 ↔ Reach w h pix bg tol p) ∧
    (pix p = bg → Reach w h pix bg tol p →
      flood_fill_background w h pix bg tol p = 0) ∧
    (¬ Reach w h pix bg tol p → flood_fill_background w h pix bg tol p = 255) := by
  refine ⟨flood_fill_eq_reach w h pix bg tol p, flood_fill_v2_eq_reach w h pix bg tol p,
    ?_, ?_⟩
  · intro _ hr
    exact (flood_fill_eq_reach w h pix bg tol p).2 hr
  · intro hnr
    rcases flood_fill_vals w h pix bg tol p with h0 | h255
    · exact absurd ((flood_fill_eq_reach w h pix bg tol p).1 h0) hnr
    · exact h255

/-- Witness for C1 at the center pixel of a concrete 3×3 region. -/
theorem claim_C1_witness :
    InB 3 3 (1, 1) ∧
    ((flood_fill_background 3 3 (fun _ => ⟨9, 9, 9⟩) ⟨9, 9, 9⟩ 0 (1, 1) = 0 ↔
        Reach 3 3 (fun _ => ⟨9, 9, 9⟩) ⟨9, 9, 9⟩ 0 (1, 1)) ∧
      (flood_fill_background_v2 3 3 (fun _ => ⟨9, 9, 9⟩) ⟨9, 9, 9⟩ 0 (1, 1) = 0 ↔
        Reach 3 3 (fun _ => ⟨9, 9, 9⟩) ⟨9, 9, 9⟩ 0 (1, 1)) ∧
      ((fun _ => (⟨9, 9, 9⟩ : Color)) ((1 : Int), (1 : Int)) = ⟨9, 9, 9⟩ →
        Reach 3 3 (fun _ => ⟨9, 9, 9⟩) ⟨9, 9, 9⟩ 0 (1, 1) →
        flood_fill_background 3 3 (fun _ => ⟨9, 9, 9⟩) ⟨9, 9, 9⟩ 0 (1, 1) = 0) ∧
      (¬ Reach 3 3 (fun _ => ⟨9, 9, 9⟩) ⟨9, 9, 9⟩ 0 (1, 1) →
        flood_fill_background 3 3 (fun _ => ⟨9, 9, 9⟩) ⟨9, 9, 9⟩ 0 (1, 1) = 255)) :=
  ⟨by decide, claim_C1 3 3 (fun _ => ⟨9, 9, 9⟩) ⟨9, 9, 9⟩ 0 (1, 1) (by decide)⟩

/-- C2: for any tolerance ≥ 0, every pixel with alpha 0 in the resulting
mask is within tolerance of the background: its squared RGB distance is at
most tolerance² (equivalently its Euclidean distance is at most the
tolerance). Both implementations are covered. -/
theorem claim_C2 (w h : Nat) (pix : Pos → Color) (bg : Color) (tol : Int)
    (htol : 0 ≤ tol) (p : Pos) :
    (flood_fill_background w h pix bg tol p = 0 → dist2 (pix p) bg ≤ tol * tol) ∧
    (flood_fill_background_v2 w h pix bg tol p = 0 → dist2 (pix p) bg ≤ tol * tol) := by
  constructor
  · intro h0
    exact (bgClose_iff.1 (reach_bgClose ((flood_fill_eq_reach w h pix bg tol p).1 h0))).2
  · intro h0
    exact (bgClose_iff.1 (reach_bgClose ((flood_fill_v2_eq_reach w h pix bg tol p).1 h0))).2

/-- Witness for C2 at tolerance 0 on a concrete 1×1 region. -/
theorem claim_C2_witness :
    (0 : Int) ≤ 0 ∧
    ((flood_fill_background 1 1 (fun _ => ⟨9, 9, 9⟩) ⟨9, 9, 9⟩ 0 (0, 0) = 0 →
        dist2 ((fun _ => (⟨9, 9, 9⟩ : Color)) ((0 : Int), (0 : Int))) ⟨9, 9, 9⟩ ≤ 0 * 0) ∧
      (flood_fill_background_v2 1 1 (fun _ => ⟨9, 9, 9⟩) ⟨9, 9, 9⟩ 0 (0, 0) = 0 →
        dist2 ((fun _ => (⟨9, 9, 9⟩ : Color)) ((0 : Int), (0 : Int))) ⟨9, 9, 9⟩ ≤ 0 * 0)) :=
  ⟨by decide, claim_C2 1 1 (fun _ => ⟨9, 9, 9⟩) ⟨9, 9, 9⟩ 0 (by decide) (0, 0)⟩

/-- C3: the background test is inclusive at the threshold: a visited pixel
of the region — a border pixel, or an 8-neighbor of a pixel already marked
transparent — whose squared distance to the background equals tolerance²
exactly is classified background (alpha 0); and in the concrete scenario
with background (255,255,255) and a single border pixel of color
(250,250,250) (distance √75 ≈ 8.66), tolerance 5 keeps it opaque while
tolerance 10 removes it. -/
theorem claim_C3 :
    (∀ (w h : Nat) (pix : Pos → Color) (bg : Color) (tol : Int) (p : Pos),
      InB w h p →
      (OnBorder w h p ∨ ∃ q, flood_fill_background w h pix bg tol q = 0 ∧ Adj8 q p) →
      0 ≤ tol → dist2 (pix p) bg = tol * tol →
      flood_fill_background w h pix bg tol p = 0) ∧
    flood_fill_background 1 1 (fun _ => ⟨250, 250, 250⟩) ⟨255, 255, 255⟩ 5 (0, 0) = 255 ∧
    flood_fill_background 1 1 (fun _ => ⟨250, 250, 250⟩) ⟨255, 255, 255⟩ 10 (0, 0) = 0 := by
  refine ⟨?_, by decide, by decide⟩
  intro w h pix bg tol p hin hvis htol hd
  have hbg : bgClose (pix p) bg tol = true := bgClose_iff.2 ⟨htol, le_of_eq hd⟩
  rcases hvis with hb | ⟨q, hq0, hadj⟩
  · exact (flood_fill_eq_reach w h pix bg tol p).2 (Reach.border p hin hb hbg)
  · exact (flood_fill_eq_reach w h pix bg tol p).2
      (Reach.step q p ((flood_fill_eq_reach w h pix bg tol q).1 hq0) hadj hin hbg)

/-- Witness for C3's threshold statement: a border pixel at distance exactly
5 from the background (dist² = 25 = 5²) is removed at tolerance 5. -/
theorem claim_C3_witness :
    InB 1 1 (0, 0) ∧ (0 : Int) ≤ 5 ∧
    dist2 ((fun _ => (⟨3, 4, 0⟩ : Color)) ((0 : Int), (0 : Int))) ⟨0, 0, 0⟩ = 5 * 5 ∧
    flood_fill_background 1 1 (fun _ => ⟨3, 4, 0⟩) ⟨0, 0, 0⟩ 5 (0, 0) = 0 :=
  ⟨by decide, by decide, by decide,
    claim_C3.1 1 1 (fun _ => ⟨3, 4, 0⟩) ⟨0, 0, 0⟩ 5 (0, 0) (by decide)
      (Or.inl (by decide)) (by decide) (by decide)⟩

/-- C10: on every pixel of the region the deque-based v1 flood fill (dense
visited/alpha arrays, enqueue-time filtering) and the list-plus-set v2 flood
fill (8-bit mask, dequeue-time filtering) produce the same alpha value, and
that value is 0 or 255. -/
theorem claim_C10 (w h : Nat) (pix : Pos → Color) (bg : Color) (tol : Int) (p : Pos)
    (hp : InB w h p) :
    flood_fill_background w h pix bg tol p = flood_fill_background_v2 w h pix bg tol p ∧
    (flood_fill_background w h pix bg tol p = 0 ∨
      flood_fill_background w h pix bg tol p = 255) := by
  refine ⟨?_, flood_fill_vals w h pix bg tol p⟩
  by_cases hr : Reach w h pix bg tol p
  · rw [(flood_fill_eq_reach w h pix bg tol p).2 hr,
      (flood_fill_v2_eq_reach w h pix bg tol p).2 hr]
  · have h1 : flood_fill_background w h pix bg tol p = 255 := by
      rcases flood_fill_vals w h pix bg tol p with h0 | h255
      · exact absurd ((flood_fill_eq_reach w h pix bg tol p).1 h0) hr
      · exact h255
    have h2 : flood_fill_background_v2 w h pix bg tol p = 255 := by
      rcases flood_fill_v2_vals w h pix bg tol p with h0 | h255
      · exact absurd ((flood_fill_v2_eq_reach w h pix bg tol p).1 h0) hr
      · exact h255
    rw [h1, h2]

/-- Witness for C10 on a concrete 3×3 region with a foreground center. -/
theorem claim_C10_witness :
    InB 3 3 (2, 2) ∧
    (flood_fill_background 3 3 (fun p => if p = (1, 1) then ⟨0, 0, 0⟩ else ⟨200, 200, 200⟩)
        ⟨200, 200, 200⟩ 10 (2, 2) =
      flood_fill_background_v2 3 3 (fun p => if p = (1, 1) then ⟨0, 0, 0⟩ else ⟨200, 200, 200⟩)
        ⟨200, 200, 200⟩ 10 (2, 2) ∧
      (flood_fill_background 3 3 (fun p => if p = (1, 1) then ⟨0, 0, 0⟩ else ⟨200, 200, 200⟩)
          ⟨200, 200, 200⟩ 10 (2, 2) = 0 ∨
        flood_fill_background 3 3 (fun p => if p = (1, 1) then ⟨0, 0, 0⟩ else ⟨200, 200, 200⟩)
          ⟨200, 200, 200⟩ 10 (2, 2) = 255)) :=
  ⟨by decide,
    claim_C10 3 3 (fun p => if p = (1, 1) then ⟨0, 0, 0⟩ else ⟨200, 200, 200⟩)
      ⟨200, 200, 200⟩ 10 (2, 2) (by decide)⟩

/-! ### The Canvas Fitter claim -/

/-! #### Correct rounding: basic properties of `rnde` and `fl53` -/

lemma rnde_le (s : ℚ) : (rnde s : ℚ) ≤ s + 1 / 2 := by
  have h1 := Int.floor_le s
  have h2 := Int.lt_floor_add_one s
  unfold rnde
  by_cases ha : s - (⌊s⌋ : ℚ) < 1 / 2
  · rw [if_pos ha]; linarith
  · rw [if_neg ha]
    by_cases hb : 1 / 2 < s - (⌊s⌋ : ℚ)
    · rw [if_pos hb]; push_cast; linarith [not_lt.1 ha]
    · rw [if_neg hb]
      by_cases hc : ⌊s⌋ % 2 = 0
      · rw [if_pos hc]; linarith
      · rw [if_neg hc]; push_cast; linarith [not_lt.1 ha]

lemma rnde_ge (s : ℚ) : s - 1 / 2 ≤ (rnde s : ℚ) := by
  have h1 := Int.floor_le s
  have h2 := Int.lt_floor_add_one s
  unfold rnde
  by_cases ha : s - (⌊s⌋ : ℚ) < 1 / 2
  · rw [if_pos ha]; linarith
  · rw [if_neg ha]
    by_cases hb : 1 / 2 < s - (⌊s⌋ : ℚ)
    · rw [if_pos hb]; push_cast; linarith
    · rw [if_neg hb]
      by_cases hc : ⌊s⌋ % 2 = 0
      · rw [if_pos hc]; linarith [not_lt.1 hb]
      · rw [if_neg hc]; push_cast; linarith

lemma int_log_two_eq {q : ℚ} {e : Int} (h1 : (2 : ℚ) ^ e ≤ q)
    (h2 : q < (2 : ℚ) ^ (e + 1)) : Int.log 2 q = e := by
  have hq : 0 < q := lt_of_lt_of_le (zpow_pos (by norm_num) e) h1
  have h1n : ((2 : ℕ) : ℚ) ^ e ≤ q := by push_cast; exact h1
  have hle : e ≤ Int.log 2 q := (Int.zpow_le_iff_le_log (by norm_num) hq).1 h1n
  have hlt : Int.log 2 q < e + 1 := by
    by_contra hc
    have hc2 : e + 1 ≤ Int.log 2 q := by omega
    have := (Int.zpow_le_iff_le_log (by norm_num : 1 < 2) hq).2 hc2
    push_cast at this
    linarith
  omega

lemma two_zpow_mul_cancel (a b : Int) :
    (2 : ℚ) ^ a * (2 : ℚ) ^ b = (2 : ℚ) ^ (a + b) :=
  (zpow_add₀ (by norm_num : (2 : ℚ) ≠ 0) a b).symm

/-- One correctly rounded operation overshoots by at most half an ulp, which
is at most `q / 2^53` in the binade of `q`. -/
lemma fl53_le {q : ℚ} (hq : 0 < q) : fl53 q ≤ q + q / 2 ^ 53 := by
  have hpown : ((2 : ℕ) : ℚ) ^ (Int.log 2 q) ≤ q :=
    Int.zpow_log_le_self (by norm_num) hq
  have hpow : (2 : ℚ) ^ (Int.log 2 q) ≤ q := by push_cast at hpown; exact hpown
  rw [fl53, if_neg (not_le.2 hq)]
  have hr := rnde_le (q * (2 : ℚ) ^ ((52 : Int) - Int.log 2 q))
  have hz2 : (0 : ℚ) < (2 : ℚ) ^ (Int.log 2 q - 52) := zpow_pos (by norm_num) _
  calc (rnde (q * (2 : ℚ) ^ ((52 : Int) - Int.log 2 q)) : ℚ) *
      (2 : ℚ) ^ (Int.log 2 q - 52)
      ≤ (q * (2 : ℚ) ^ ((52 : Int) - Int.log 2 q) + 1 / 2) *
          (2 : ℚ) ^ (Int.log 2 q - 52) := mul_le_mul_of_nonneg_right hr hz2.le
    _ = q + 1 / 2 * (2 : ℚ) ^ (Int.log 2 q - 52) := by
        rw [add_mul, mul_assoc, two_zpow_mul_cancel]
        norm_num
    _ ≤ q + q / 2 ^ 53 := by
        have he : 1 / 2 * (2 : ℚ) ^ (Int.log 2 q - 52) =
            (2 : ℚ) ^ (Int.log 2 q) * (2 : ℚ) ^ (-53 : Int) := by
          rw [two_zpow_mul_cancel]
          rw [show (1 / 2 : ℚ) = (2 : ℚ) ^ (-1 : Int) by norm_num]
          rw [two_zpow_mul_cancel]
          congr 1
          omega
        rw [he]
        have hmul : (2 : ℚ) ^ (Int.log 2 q) * (2 : ℚ) ^ (-53 : Int) ≤
            q * (2 : ℚ) ^ (-53 : Int) :=
          mul_le_mul_of_nonneg_right hpow (zpow_pos (by norm_num) _).le
        have hq53 : q * (2 : ℚ) ^ (-53 : Int) = q / 2 ^ 53 := by
          rw [show ((-53 : Int)) = -((53 : Nat) : Int) by norm_num, zpow_neg,
            zpow_natCast, div_eq_mul_inv]
        rw [hq53] at hmul
        linarith

/-- One correctly rounded operation undershoots by at most half an ulp. -/
lemma fl53_ge {q : ℚ} (hq : 0 < q) : q - q / 2 ^ 53 ≤ fl53 q := by
  have hpown : ((2 : ℕ) : ℚ) ^ (Int.log 2 q) ≤ q :=
    Int.zpow_log_le_self (by norm_num) hq
  have hpow : (2 : ℚ) ^ (Int.log 2 q) ≤ q := by push_cast at hpown; exact hpown
  rw [fl53, if_neg (not_le.2 hq)]
  have hr := rnde_ge (q * (2 : ℚ) ^ ((52 : Int) - Int.log 2 q))
  have hz2 : (0 : ℚ) < (2 : ℚ) ^ (Int.log 2 q - 52) := zpow_pos (by norm_num) _
  have hstep : (q * (2 : ℚ) ^ ((52 : Int) - Int.log 2 q) - 1 / 2) *
      (2 : ℚ) ^ (Int.log 2 q - 52) ≤
      (rnde (q * (2 : ℚ) ^ ((52 : Int) - Int.log 2 q)) : ℚ) *
        (2 : ℚ) ^ (Int.log 2 q - 52) := mul_le_mul_of_nonneg_right hr hz2.le
  have hexp : (q * (2 : ℚ) ^ ((52 : Int) - Int.log 2 q) - 1 / 2) *
      (2 : ℚ) ^ (Int.log 2 q - 52) =
      q - 1 / 2 * (2 : ℚ) ^ (Int.log 2 q - 52) := by
    rw [sub_mul, mul_assoc, two_zpow_mul_cancel]
    norm_num
  have he : 1 / 2 * (2 : ℚ) ^ (Int.log 2 q - 52) =
      (2 : ℚ) ^ (Int.log 2 q) * (2 : ℚ) ^ (-53 : Int) := by
    rw [two_zpow_mul_cancel]
    rw [show (1 / 2 : ℚ) = (2 : ℚ) ^ (-1 : Int) by norm_num]
    rw [two_zpow_mul_cancel]
    congr 1
    omega
  have hmul : (2 : ℚ) ^ (Int.log 2 q) * (2 : ℚ) ^ (-53 : Int) ≤
      q * (2 : ℚ) ^ (-53 : Int) :=
    mul_le_mul_of_nonneg_right hpow (zpow_pos (by norm_num) _).le
  have hq53 : q * (2 : ℚ) ^ (-53 : Int) = q / 2 ^ 53 := by
    rw [show ((-53 : Int)) = -((53 : Nat) : Int) by norm_num, zpow_neg,
      zpow_natCast, div_eq_mul_inv]
  rw [hexp] at hstep
  rw [he] at hstep
  rw [hq53] at hmul
  exact le_trans (sub_le_sub_left hmul q) hstep

/-- Evaluate `fl53` in a nonnegative binade, round-down case: if
`m ≤ q·2^(52-e) < m + 1/2` the rounded value is `m / 2^(52-e)`. -/
lemma fl53_eq_down {q : ℚ} (e : Nat) (m : Int) (he : e ≤ 52)
    (h1 : (2 : ℚ) ^ (e : Int) ≤ q) (h2 : q < (2 : ℚ) ^ ((e : Int) + 1))
    (h3 : (m : ℚ) ≤ q * (2 : ℚ) ^ (52 - e))
    (h4 : q * (2 : ℚ) ^ (52 - e) < (m : ℚ) + 1 / 2) :
    fl53 q = (m : ℚ) / (2 : ℚ) ^ (52 - e) := by
  have hq : 0 < q := lt_of_lt_of_le (zpow_pos (by norm_num) _) h1
  have hlog : Int.log 2 q = (e : Int) := int_log_two_eq h1 h2
  rw [fl53, if_neg (not_le.2 hq), hlog]
  have hcast : (2 : ℚ) ^ ((52 : Int) - (e : Int)) = (2 : ℚ) ^ (52 - e) := by
    rw [show ((52 : Int) - (e : Int)) = ((52 - e : Nat) : Int) by omega, zpow_natCast]
  rw [hcast]
  have hfloor : ⌊q * (2 : ℚ) ^ (52 - e)⌋ = m :=
    Int.floor_eq_iff.2 ⟨h3, by push_cast; linarith⟩
  rw [rnde, hfloor]
  rw [if_pos (by push_cast; linarith : q * (2 : ℚ) ^ (52 - e) - (m : ℚ) < 1 / 2)]
  have hinv : (2 : ℚ) ^ ((e : Int) - 52) = ((2 : ℚ) ^ (52 - e))⁻¹ := by
    rw [show ((e : Int) - 52) = -((52 - e : Nat) : Int) by omega, zpow_neg, zpow_natCast]
  rw [hinv, div_eq_mul_inv]

/-- Evaluate `fl53` in a nonnegative binade, round-up case: if
`m + 1/2 < q·2^(52-e) < m + 1` the rounded value is `(m+1) / 2^(52-e)`. -/
lemma fl53_eq_up {q : ℚ} (e : Nat) (m : Int) (he : e ≤ 52)
    (h1 : (2 : ℚ) ^ (e : Int) ≤ q) (h2 : q < (2 : ℚ) ^ ((e : Int) + 1))
    (h3 : (m : ℚ) + 1 / 2 < q * (2 : ℚ) ^ (52 - e))
    (h4 : q * (2 : ℚ) ^ (52 - e) < (m : ℚ) + 1) :
    fl53 q = ((m : ℚ) + 1) / (2 : ℚ) ^ (52 - e) := by
  have hq : 0 < q := lt_of_lt_of_le (zpow_pos (by norm_num) _) h1
  have hlog : Int.log 2 q = (e : Int) := int_log_two_eq h1 h2
  rw [fl53, if_neg (not_le.2 hq), hlog]
  have hcast : (2 : ℚ) ^ ((52 : Int) - (e : Int)) = (2 : ℚ) ^ (52 - e) := by
    rw [show ((52 : Int) - (e : Int)) = ((52 - e : Nat) : Int) by omega, zpow_natCast]
  rw [hcast]
  have hfloor : ⌊q * (2 : ℚ) ^ (52 - e)⌋ = m :=
    Int.floor_eq_iff.2 ⟨by linarith, by push_cast; linarith⟩
  rw [rnde, hfloor]
  rw [if_neg (by push_cast; linarith : ¬ (q * (2 : ℚ) ^ (52 - e) - (m : ℚ) < 1 / 2))]
  rw [if_pos (by push_cast; linarith : (1 : ℚ) / 2 < q * (2 : ℚ) ^ (52 - e) - (m : ℚ))]
  have hinv : (2 : ℚ) ^ ((e : Int) - 52) = ((2 : ℚ) ^ (52 - e))⁻¹ := by
    rw [show ((e : Int) - 52) = -((52 - e : Nat) : Int) by omega, zpow_neg, zpow_natCast]
  rw [hinv, div_eq_mul_inv]
  push_cast
  ring

lemma ratTrunc_eq_floor {q : ℚ} (hq : 0 ≤ q) : ratTrunc q = ⌊q⌋ := by
  rw [ratTrunc, Rat.floor_def]
  exact Int.tdiv_eq_ediv (Rat.num_nonneg.2 hq) (Int.natCast_nonneg _)

lemma availSpan_cast (target pad : Nat) :
    ((availSpan target pad : Int) : ℚ) = (target : ℚ) - 2 * (pad : ℚ) := by
  unfold availSpan
  push_cast
  ring

/-- Per-axis analysis of the float computation `int(dim * scale)`: given a
two-sided half-ulp-per-operation bound between the float scale `sF` and the
exact scale `sE`, and a target no larger than `2^50`, the truncated result
is nonnegative, fits the available span, and lies within one of the
exact-arithmetic floor value. -/
lemma fit_axis_bounds (w target pad : Nat) (sE sF : ℚ)
    (hw : 0 < w) (hcap : target ≤ 2 ^ 50) (hsE : 0 < sE)
    (hW : (w : ℚ) * sE ≤ ((availSpan target pad : Int) : ℚ))
    (hub : sF ≤ sE + sE / 2 ^ 53) (hlb : sE - sE / 2 ^ 53 ≤ sF) :
    0 ≤ ratTrunc (fl53 ((w : ℚ) * sF)) ∧
    ratTrunc (fl53 ((w : ℚ) * sF)) ≤ availSpan target pad ∧
    ⌊(w : ℚ) * sE⌋ - 1 ≤ ratTrunc (fl53 ((w : ℚ) * sF)) ∧
    ratTrunc (fl53 ((w : ℚ) * sF)) ≤ ⌊(w : ℚ) * sE⌋ + 1 := by
  have hwq : (0 : ℚ) < (w : ℚ) := by exact_mod_cast hw
  have hW_pos : 0 < (w : ℚ) * sE := mul_pos hwq hsE
  have hA_ub : (w : ℚ) * sF ≤ (w : ℚ) * sE + (w : ℚ) * sE / 2 ^ 53 := by
    calc (w : ℚ) * sF ≤ (w : ℚ) * (sE + sE / 2 ^ 53) :=
          mul_le_mul_of_nonneg_left hub hwq.le
      _ = (w : ℚ) * sE + (w : ℚ) * sE / 2 ^ 53 := by ring
  have hA_lb : (w : ℚ) * sE - (w : ℚ) * sE / 2 ^ 53 ≤ (w : ℚ) * sF := by
    calc (w : ℚ) * sE - (w : ℚ) * sE / 2 ^ 53 = (w : ℚ) * (sE - sE / 2 ^ 53) := by
          ring
      _ ≤ (w : ℚ) * sF := mul_le_mul_of_nonneg_left hlb hwq.le
  have hA_pos : 0 < (w : ℚ) * sF := by linarith
  have hP_ub := fl53_le hA_pos
  have hP_lb := fl53_ge hA_pos
  have hcapq : (w : ℚ) * sE ≤ 2 ^ 50 := by
    have h1 : ((availSpan target pad : Int) : ℚ) ≤ (target : ℚ) := by
      unfold availSpan
      push_cast
      have : (0 : ℚ) ≤ (pad : ℚ) := Nat.cast_nonneg pad
      linarith
    have h2 : (target : ℚ) ≤ 2 ^ 50 := by exact_mod_cast hcap
    linarith
  have hkey1 : fl53 ((w : ℚ) * sF) < (w : ℚ) * sE + 1 := by linarith
  have hkey2 : (w : ℚ) * sE - 1 < fl53 ((w : ℚ) * sF) := by linarith
  have hP0 : 0 ≤ fl53 ((w : ℚ) * sF) := by linarith
  rw [ratTrunc_eq_floor hP0]
  refine ⟨Int.le_floor.2 (by exact_mod_cast hP0), ?_, ?_, ?_⟩
  · have hlt : fl53 ((w : ℚ) * sF) < ((availSpan target pad + 1 : Int) : ℚ) := by
      push_cast
      linarith
    have := Int.floor_lt.2 hlt
    omega
  · refine Int.le_floor.2 ?_
    push_cast
    have hfl := Int.floor_le ((w : ℚ) * sE)
    linarith
  · have hlt : fl53 ((w : ℚ) * sF) < ((⌊(w : ℚ) * sE⌋ + 2 : Int) : ℚ) := by
      push_cast
      have := Int.lt_floor_add_one ((w : ℚ) * sE)
      linarith
    have := Int.floor_lt.2 hlt
    omega

/-- C4 (amended): under positive input dimensions, target dimensions strictly
larger than twice the padding and at most `2^50`, the Canvas Fitter's output
is exactly the target size; the program's resized content dimensions — the
binary64 evaluations of `int(w*scale)`, `int(h*scale)` — are nonnegative,
fit within the available `target - 2*padding` area, and lie within one pixel
of the exact-arithmetic values `⌊w*s⌋`, `⌊h*s⌋` for the claimed scale
`s = min((tw-2*pad)/w, (th-2*pad)/h)`; the paste offsets are the integer
floor divisions `(tw - new_w) // 2`, `(th - new_h) // 2`; and the pasted
rectangle lies entirely inside the canvas (no cropping). -/
theorem claim_C4 (img : Img) (tw th pad : Nat)
    (resample : Img → Nat → Nat → Nat → Nat → Pix)
    (hw : 0 < img.width) (hh : 0 < img.height)
    (htw : 2 * pad < tw) (hth : 2 * pad < th)
    (htw2 : tw ≤ 2 ^ 50) (hth2 : th ≤ 2 ^ 50) :
    (fit_to_canvas img tw th pad resample).width = tw ∧
    (fit_to_canvas img tw th pad resample).height = th ∧
    fitScale img.width img.height tw th pad =
      min (((tw : ℚ) - 2 * (pad : ℚ)) / (img.width : ℚ))
        (((th : ℚ) - 2 * (pad : ℚ)) / (img.height : ℚ)) ∧
    ⌊(img.width : ℚ) * fitScale img.width img.height tw th pad⌋ - 1 ≤
      fitNewWF img.width img.height tw th pad ∧
    fitNewWF img.width img.height tw th pad ≤
      ⌊(img.width : ℚ) * fitScale img.width img.height tw th pad⌋ + 1 ∧
    ⌊(img.height : ℚ) * fitScale img.width img.height tw th pad⌋ - 1 ≤
      fitNewHF img.width img.height tw th pad ∧
    fitNewHF img.width img.height tw th pad ≤
      ⌊(img.height : ℚ) * fitScale img.width img.height tw th pad⌋ + 1 ∧
    0 ≤ fitNewWF img.width img.height tw th pad ∧
    fitNewWF img.width img.height tw th pad ≤ (tw : Int) - 2 * (pad : Int) ∧
    0 ≤ fitNewHF img.width img.height tw th pad ∧
    fitNewHF img.width img.height tw th pad ≤ (th : Int) - 2 * (pad : Int) ∧
    fitOffXF img.width img.height tw th pad =
      ((tw : Int) - fitNewWF img.width img.height tw th pad).fdiv 2 ∧
    fitOffYF img.width img.height tw th pad =
      ((th : Int) - fitNewHF img.width img.height tw th pad).fdiv 2 ∧
    0 ≤ fitOffXF img.width img.height tw th pad ∧
    0 ≤ fitOffYF img.width img.height tw th pad ∧
    fitOffXF img.width img.height tw th pad +
      fitNewWF img.width img.height tw th pad ≤ (tw : Int) ∧
    fitOffYF img.width img.height tw th pad +
      fitNewHF img.width img.height tw th pad ≤ (th : Int) := by
  have hwq : (0 : ℚ) < (img.width : ℚ) := by exact_mod_cast hw
  have hhq : (0 : ℚ) < (img.height : ℚ) := by exact_mod_cast hh
  have havw : (0 : ℚ) < ((availSpan tw pad : Int) : ℚ) := by
    unfold availSpan
    push_cast
    have : (2 * pad : ℚ) < (tw : ℚ) := by exact_mod_cast htw
    linarith
  have havh : (0 : ℚ) < ((availSpan th pad : Int) : ℚ) := by
    unfold availSpan
    push_cast
    have : (2 * pad : ℚ) < (th : ℚ) := by exact_mod_cast hth
    linarith
  have ha_pos : 0 < ((availSpan tw pad : Int) : ℚ) / (img.width : ℚ) :=
    div_pos havw hwq
  have hb_pos : 0 < ((availSpan th pad : Int) : ℚ) / (img.height : ℚ) :=
    div_pos havh hhq
  have hsE_pos : 0 < fitScale img.width img.height tw th pad := lt_min ha_pos hb_pos
  have hfa_ub := fl53_le ha_pos
  have hfa_lb := fl53_ge ha_pos
  have hfb_ub := fl53_le hb_pos
  have hfb_lb := fl53_ge hb_pos
  have hminA : fitScale img.width img.height tw th pad ≤
      ((availSpan tw pad : Int) : ℚ) / (img.width : ℚ) := min_le_left _ _
  have hminB : fitScale img.width img.height tw th pad ≤
      ((availSpan th pad : Int) : ℚ) / (img.height : ℚ) := min_le_right _ _
  have hub : fitScaleF img.width img.height tw th pad ≤
      fitScale img.width img.height tw th pad +
        fitScale img.width img.height tw th pad / 2 ^ 53 := by
    rcases min_cases (((availSpan tw pad : Int) : ℚ) / (img.width : ℚ))
      (((availSpan th pad : Int) : ℚ) / (img.height : ℚ)) with ⟨hmin, _⟩ | ⟨hmin, _⟩
    · calc fitScaleF img.width img.height tw th pad
          ≤ fl53 (((availSpan tw pad : Int) : ℚ) / (img.width : ℚ)) := min_le_left _ _
        _ ≤ ((availSpan tw pad : Int) : ℚ) / (img.width : ℚ) +
              ((availSpan tw pad : Int) : ℚ) / (img.width : ℚ) / 2 ^ 53 := hfa_ub
        _ = fitScale img.width img.height tw th pad +
              fitScale img.width img.height tw th pad / 2 ^ 53 := by
            rw [show fitScale img.width img.height tw th pad =
              ((availSpan tw pad : Int) : ℚ) / (img.width : ℚ) from hmin]
    · calc fitScaleF img.width img.height tw th pad
          ≤ fl53 (((availSpan th pad : Int) : ℚ) / (img.height : ℚ)) := min_le_right _ _
        _ ≤ ((availSpan th pad : Int) : ℚ) / (img.height : ℚ) +
              ((availSpan th pad : Int) : ℚ) / (img.height : ℚ) / 2 ^ 53 := hfb_ub
        _ = fitScale img.width img.height tw th pad +
              fitScale img.width img.height tw th pad / 2 ^ 53 := by
            rw [show fitScale img.width img.height tw th pad =
              ((availSpan th pad : Int) : ℚ) / (img.height : ℚ) from hmin]
  have hlb : fitScale img.width img.height tw th pad -
      fitScale img.width img.height tw th pad / 2 ^ 53 ≤
      fitScaleF img.width img.height tw th pad := by
    refine le_min ?_ ?_
    · linarith
    · linarith
  have hWa : (img.width : ℚ) * fitScale img.width img.height tw th pad ≤
      ((availSpan tw pad : Int) : ℚ) := by
    have h1 : (img.width : ℚ) * fitScale img.width img.height tw th pad ≤
        (img.width : ℚ) * (((availSpan tw pad : Int) : ℚ) / (img.width : ℚ)) :=
      mul_le_mul_of_nonneg_left hminA hwq.le
    have h2 : (img.width : ℚ) * (((availSpan tw pad : Int) : ℚ) / (img.width : ℚ)) =
        ((availSpan tw pad : Int) : ℚ) := by field_simp
    linarith
  have hWb : (img.height : ℚ) * fitScale img.width img.height tw th pad ≤
      ((availSpan th pad : Int) : ℚ) := by
    have h1 : (img.height : ℚ) * fitScale img.width img.height tw th pad ≤
        (img.height : ℚ) * (((availSpan th pad : Int) : ℚ) / (img.height : ℚ)) :=
      mul_le_mul_of_nonneg_left hminB hhq.le
    have h2 : (img.height : ℚ) * (((availSpan th pad : Int) : ℚ) / (img.height : ℚ)) =
        ((availSpan th pad : Int) : ℚ) := by field_simp
    linarith
  obtain ⟨cw0, cwav, cwlo, cwhi⟩ := fit_axis_bounds img.width tw pad
    (fitScale img.width img.height tw th pad)
    (fitScaleF img.width img.height tw th pad) hw htw2 hsE_pos hWa hub hlb
  obtain ⟨ch0, chav, chlo, chhi⟩ := fit_axis_bounds img.height th pad
    (fitScale img.width img.height tw th pad)
    (fitScaleF img.width img.height tw th pad) hh hth2 hsE_pos hWb hub hlb
  have hav1 : availSpan tw pad = (tw : Int) - 2 * (pad : Int) := rfl
  have hav2 : availSpan th pad = (th : Int) - 2 * (pad : Int) := rfl
  rw [hav1] at cwav
  rw [hav2] at chav
  have cw0x : 0 ≤ fitNewWF img.width img.height tw th pad := cw0
  have cwavx : fitNewWF img.width img.height tw th pad ≤
      (tw : Int) - 2 * (pad : Int) := cwav
  have ch0x : 0 ≤ fitNewHF img.width img.height tw th pad := ch0
  have chavx : fitNewHF img.width img.height tw th pad ≤
      (th : Int) - 2 * (pad : Int) := chav
  have hdvx : fitOffXF img.width img.height tw th pad =
      ((tw : Int) - fitNewWF img.width img.height tw th pad) / 2 := by
    rw [fitOffXF]
    exact Int.fdiv_eq_ediv _ (by norm_num)
  have hdvy : fitOffYF img.width img.height tw th pad =
      ((th : Int) - fitNewHF img.width img.height tw th pad) / 2 := by
    rw [fitOffYF]
    exact Int.fdiv_eq_ediv _ (by norm_num)
  refine ⟨rfl, rfl, ?_, cwlo, cwhi, chlo, chhi, cw0, cwav, ch0, chav, rfl, rfl,
    ?_, ?_, ?_, ?_⟩
  · unfold fitScale
    rw [availSpan_cast, availSpan_cast]
  · rw [hdvx]; omega
  · rw [hdvy]; omega
  · rw [hdvx]; omega
  · rw [hdvy]; omega

/-- The binary64 evaluation of `180/161` (the scale of a 161×161 input on a
200×200 canvas with padding 10): it rounds down, losing `(80/161)·2^-52`. -/
lemma fl53_180_161 : fl53 ((180 : ℚ) / 161) = 5035080328737200 / 2 ^ 52 :=
  fl53_eq_down 0 5035080328737200 (by norm_num) (by norm_num) (by norm_num)
    (by norm_num) (by norm_num)

lemma fitScaleF_161 : fitScaleF 161 161 200 200 10 = 5035080328737200 / 2 ^ 52 := by
  unfold fitScaleF
  have ha : ((availSpan 200 10 : Int) : ℚ) / ((161 : Nat) : ℚ) = (180 : ℚ) / 161 := by
    unfold availSpan
    norm_num
  rw [ha, min_self, fl53_180_161]

/-- `int(161 * (180/161))` as the program computes it: the float product is
`179.99999999999997` and truncation yields 179, not 180. -/
lemma fitNewWF_161 : fitNewWF 161 161 200 200 10 = 179 := by
  unfold fitNewWF
  rw [fitScaleF_161]
  have hprod : ((161 : Nat) : ℚ) * (5035080328737200 / 2 ^ 52) =
      (810647932926689200 : ℚ) / 2 ^ 52 := by norm_num
  rw [hprod]
  have hfl : fl53 ((810647932926689200 : ℚ) / 2 ^ 52) =
      (6333186975989759 : ℚ) / 2 ^ 45 :=
    fl53_eq_down 7 6333186975989759 (by norm_num) (by norm_num) (by norm_num)
      (by norm_num) (by norm_num)
  rw [hfl, ratTrunc_eq_floor (by norm_num)]
  exact Int.floor_eq_iff.2 ⟨by norm_num, by norm_num⟩

/-- C4 counterexample: at a 161×161 input, a 200×200 target and padding 10
(all within the claim's preconditions) the program computes
`new_width = int(161 * (180/161)) = 179` in binary64, while the claimed
formula gives `⌊161 * min(180/161, 180/161)⌋ = 180`. -/
theorem claim_C4_counterexample :
    fitNewWF 161 161 200 200 10 = 179 ∧
    ⌊(161 : ℚ) * fitScale 161 161 200 200 10⌋ = 180 ∧
    fitNewWF 161 161 200 200 10 ≠ ⌊(161 : ℚ) * fitScale 161 161 200 200 10⌋ := by
  have hs : fitScale 161 161 200 200 10 = (180 : ℚ) / 161 := by
    unfold fitScale availSpan
    norm_num
  have hfloor : ⌊(161 : ℚ) * fitScale 161 161 200 200 10⌋ = 180 := by
    rw [hs, show (161 : ℚ) * (180 / 161) = 180 by norm_num]
    exact Int.floor_eq_iff.2 ⟨by norm_num, by norm_num⟩
  refine ⟨fitNewWF_161, hfloor, ?_⟩
  rw [fitNewWF_161, hfloor]
  decide

/-- Witness for C4 on a concrete 44×44 buffer fit to a 200×200 canvas with
padding 10. -/
theorem claim_C4_witness :
    (0 : Nat) < 44 ∧ 2 * 10 < (200 : Nat) ∧ (200 : Nat) ≤ 2 ^ 50 ∧
    (fit_to_canvas (⟨44, 44, true, fun _ _ => ⟨0, 0, 0, 255⟩⟩ : Img) 200 200 10
        (fun _ _ _ _ _ => ⟨0, 0, 0, 0⟩)).width = 200 ∧
    0 ≤ fitOffXF (⟨44, 44, true, fun _ _ => ⟨0, 0, 0, 255⟩⟩ : Img).width
        (⟨44, 44, true, fun _ _ => ⟨0, 0, 0, 255⟩⟩ : Img).height 200 200 10 :=
  ⟨by decide, by decide, by decide,
    (claim_C4 ⟨44, 44, true, fun _ _ => ⟨0, 0, 0, 255⟩⟩ 200 200 10
      (fun _ _ _ _ _ => ⟨0, 0, 0, 0⟩) (by decide) (by decide) (by decide) (by decide)
      (by decide) (by decide)).1,
    (claim_C4 ⟨44, 44, true, fun _ _ => ⟨0, 0, 0, 255⟩⟩ 200 200 10
      (fun _ _ _ _ _ => ⟨0, 0, 0, 0⟩) (by decide) (by decide) (by decide) (by decide)
      (by decide) (by decide)).2.2.2.2.2.2.2.2.2.2.2.2.2.2.1⟩

/-! ### The end-to-end scenario: 100×100 white region with a 40×40 black
square at (30,30)-(70,70), background white, tolerance 10 -/

/-- The concrete region: white everywhere except a black square occupying
columns 30..69 and rows 30..69. -/
def img100 : Img :=
  ⟨100, 100, false, fun x y =>
    if 30 ≤ x ∧ x < 70 ∧ 30 ≤ y ∧ y < 70 then ⟨0, 0, 0, 0⟩ else ⟨255, 255, 255, 0⟩⟩

/-- The black square of `img100`, in signed coordinates. -/
def inSquare (p : Pos) : Prop :=
  30 ≤ p.1 ∧ p.1 < 70 ∧ 30 ≤ p.2 ∧ p.2 < 70

instance (p : Pos) : Decidable (inSquare p) := by
  unfold inSquare; exact inferInstance

lemma rgbAt_img100 {x y : Int} (hx : 0 ≤ x) (hy : 0 ≤ y) :
    rgbAt img100 (x, y) =
      if inSquare (x, y) then ⟨0, 0, 0⟩ else ⟨255, 255, 255⟩ := by
  show (⟨(img100.pix x.toNat y.toNat).r, (img100.pix x.toNat y.toNat).g,
      (img100.pix x.toNat y.toNat).b⟩ : Color) = _
  by_cases hc : 30 ≤ x.toNat ∧ x.toNat < 70 ∧ 30 ≤ y.toNat ∧ y.toNat < 70
  · have hpix : img100.pix x.toNat y.toNat = ⟨0, 0, 0, 0⟩ := by
      show (if 30 ≤ x.toNat ∧ x.toNat < 70 ∧ 30 ≤ y.toNat ∧ y.toNat < 70 then
        (⟨0, 0, 0, 0⟩ : Pix) else ⟨255, 255, 255, 0⟩) = _
      rw [if_pos hc]
    have hsq : inSquare (x, y) := by unfold inSquare; omega
    rw [if_pos hsq, hpix]
  · have hpix : img100.pix x.toNat y.toNat = ⟨255, 255, 255, 0⟩ := by
      show (if 30 ≤ x.toNat ∧ x.toNat < 70 ∧ 30 ≤ y.toNat ∧ y.toNat < 70 then
        (⟨0, 0, 0, 0⟩ : Pix) else ⟨255, 255, 255, 0⟩) = _
      rw [if_neg hc]
    have hsq : ¬ inSquare (x, y) := by unfold inSquare; omega
    rw [if_neg hsq, hpix]

lemma white_bgClose100 {p : Pos} (hp : InB 100 100 p) (hns : ¬ inSquare p) :
    bgClose (rgbAt img100 p) ⟨255, 255, 255⟩ 10 = true := by
  obtain ⟨x, y⟩ := p
  rw [rgbAt_img100 hp.1 hp.2.2.1, if_neg hns]
  decide

lemma adj8_of_delta {p q : Pos} (h : (q.1 - p.1, q.2 - p.2) ∈ offsets) : Adj8 p q := h

lemma reach_up100 :
    ∀ n : Nat, (n : Int) < 30 → ∀ x : Int, 0 ≤ x → x < 100 →
      Reach 100 100 (rgbAt img100) ⟨255, 255, 255⟩ 10 (x, (n : Int)) := by
  intro n
  induction n with
  | zero =>
    intro _ x hx1 hx2
    refine Reach.border _ ⟨hx1, hx2, by omega, by omega⟩ (Or.inl rfl) ?_
    exact white_bgClose100 ⟨hx1, hx2, by omega, by omega⟩ (by unfold inSquare; omega)
  | succ m ih =>
    intro hn x hx1 hx2
    have hm : (m : Int) < 30 := by push_cast at hn ⊢; omega
    refine Reach.step (x, (m : Int)) _ (ih hm x hx1 hx2) ?_ ?_ ?_
    · refine adj8_of_delta ?_
      have h1 : x - x = 0 := by ring
      have h2 : ((m + 1 : Nat) : Int) - (m : Int) = 1 := by push_cast; ring
      show (x - x, ((m + 1 : Nat) : Int) - (m : Int)) ∈ offsets
      rw [h1, h2]
      simp [offsets]
    · exact ⟨hx1, hx2, by positivity, by push_cast at hn ⊢; omega⟩
    · exact white_bgClose100 ⟨hx1, hx2, by positivity, by push_cast at hn ⊢; omega⟩
        (by unfold inSquare; push_cast at hn ⊢; omega)

lemma reach_down100 :
    ∀ n : Nat, 70 ≤ (99 : Int) - (n : Int) → ∀ x : Int, 0 ≤ x → x < 100 →
      Reach 100 100 (rgbAt img100) ⟨255, 255, 255⟩ 10 (x, (99 : Int) - (n : Int)) := by
  intro n
  induction n with
  | zero =>
    intro _ x hx1 hx2
    refine Reach.border _ ⟨hx1, hx2, by omega, by omega⟩ ?_ ?_
    · exact Or.inr (Or.inl (by omega))
    · exact white_bgClose100 ⟨hx1, hx2, by omega, by omega⟩ (by unfold inSquare; omega)
  | succ m ih =>
    intro hn x hx1 hx2
    have hm : 70 ≤ (99 : Int) - (m : Int) := by push_cast at hn ⊢; omega
    refine Reach.step (x, (99 : Int) - (m : Int)) _ (ih hm x hx1 hx2) ?_ ?_ ?_
    · refine adj8_of_delta ?_
      have h1 : x - x = 0 := by ring
      have h2 : ((99 : Int) - ((m + 1 : Nat) : Int)) - ((99 : Int) - (m : Int)) = -1 := by
        push_cast; ring
      show (x - x, ((99 : Int) - ((m + 1 : Nat) : Int)) - ((99 : Int) - (m : Int))) ∈ offsets
      rw [h1, h2]
      simp [offsets]
    · exact ⟨hx1, hx2, by push_cast at hn ⊢; omega, by push_cast; omega⟩
    · exact white_bgClose100 ⟨hx1, hx2, by push_cast at hn ⊢; omega, by push_cast; omega⟩
        (by unfold inSquare; push_cast at hn ⊢; omega)

lemma reach_left100 :
    ∀ n : Nat, (n : Int) < 30 → ∀ y : Int, 0 ≤ y → y < 100 →
      Reach 100 100 (rgbAt img100) ⟨255, 255, 255⟩ 10 ((n : Int), y) := by
  intro n
  induction n with
  | zero =>
    intro _ y hy1 hy2
    refine Reach.border _ ⟨by omega, by omega, hy1, hy2⟩
      (Or.inr (Or.inr (Or.inl rfl))) ?_
    exact white_bgClose100 ⟨by omega, by omega, hy1, hy2⟩ (by unfold inSquare; omega)
  | succ m ih =>
    intro hn y hy1 hy2
    have hm : (m : Int) < 30 := by push_cast at hn ⊢; omega
    refine Reach.step ((m : Int), y) _ (ih hm y hy1 hy2) ?_ ?_ ?_
    · refine adj8_of_delta ?_
      have h1 : y - y = 0 := by ring
      have h2 : ((m + 1 : Nat) : Int) - (m : Int) = 1 := by push_cast; ring
      show (((m + 1 : Nat) : Int) - (m : Int), y - y) ∈ offsets
      rw [h1, h2]
      simp [offsets]
    · exact ⟨by positivity, by push_cast at hn ⊢; omega, hy1, hy2⟩
    · exact white_bgClose100 ⟨by positivity, by push_cast at hn ⊢; omega, hy1, hy2⟩
        (by unfold inSquare; push_cast at hn ⊢; omega)

lemma reach_right100 :
    ∀ n : Nat, 70 ≤ (99 : Int) - (n : Int) → ∀ y : Int, 0 ≤ y → y < 100 →
      Reach 100 100 (rgbAt img100) ⟨255, 255, 255⟩ 10 ((99 : Int) - (n : Int), y) := by
  intro n
  induction n with
  | zero =>
    intro _ y hy1 hy2
    refine Reach.border _ ⟨by omega, by omega, hy1, hy2⟩
      (Or.inr (Or.inr (Or.inr (by omega)))) ?_
    exact white_bgClose100 ⟨by omega, by omega, hy1, hy2⟩ (by unfold inSquare; omega)
  | succ m ih =>
    intro hn y hy1 hy2
    have hm : 70 ≤ (99 : Int) - (m : Int) := by push_cast at hn ⊢; omega
    refine Reach.step ((99 : Int) - (m : Int), y) _ (ih hm y hy1 hy2) ?_ ?_ ?_
    · refine adj8_of_delta ?_
      have h1 : y - y = 0 := by ring
      have h2 : ((99 : Int) - ((m + 1 : Nat) : Int)) - ((99 : Int) - (m : Int)) = -1 := by
        push_cast; ring
      show (((99 : Int) - ((m + 1 : Nat) : Int)) - ((99 : Int) - (m : Int)), y - y) ∈ offsets
      rw [h1, h2]
      simp [offsets]
    · exact ⟨by push_cast at hn ⊢; omega, by push_cast; omega, hy1, hy2⟩
    · exact white_bgClose100 ⟨by push_cast at hn ⊢; omega, by push_cast; omega, hy1, hy2⟩
        (by unfold inSquare; push_cast at hn ⊢; omega)

/-- Every white (outside-the-square) pixel of the region is border-reachable. -/
lemma reach_white100 {p : Pos} (hp : InB 100 100 p) (hns : ¬ inSquare p) :
    Reach 100 100 (rgbAt img100) ⟨255, 255, 255⟩ 10 p := by
  obtain ⟨x, y⟩ := p
  obtain ⟨h1, h2, h3, h4⟩ := hp
  have hcases : x < 30 ∨ 70 ≤ x ∨ y < 30 ∨ 70 ≤ y := by
    unfold inSquare at hns
    omega
  rcases hcases with hc | hc | hc | hc
  · have := reach_left100 x.toNat (by omega) y h3 h4
    rwa [Int.toNat_of_nonneg h1] at this
  · have := reach_right100 (99 - x).toNat (by omega) y h3 h4
    have he : (99 : Int) - ((99 - x).toNat : Int) = x := by omega
    rwa [he] at this
  · have := reach_up100 y.toNat (by omega) x h1 h2
    rwa [Int.toNat_of_nonneg h3] at this
  · have := reach_down100 (99 - y).toNat (by omega) x h1 h2
    have he : (99 : Int) - ((99 - y).toNat : Int) = y := by omega
    rwa [he] at this

/-- The mask of the scenario: transparent exactly off the square. -/
lemma mask100 (p : Pos) (hp : InB 100 100 p) :
    flood_fill_background 100 100 (rgbAt img100) ⟨255, 255, 255⟩ 10 p = 0 ↔
      ¬ inSquare p := by
  rw [flood_fill_eq_reach]
  constructor
  · intro hr hsq
    have hbg := reach_bgClose hr
    obtain ⟨x, y⟩ := p
    rw [rgbAt_img100 hp.1 hp.2.2.1, if_pos hsq] at hbg
    exact absurd hbg (by decide)
  · exact reach_white100 hp

/-- The masked RGBA buffer of the scenario. -/
def rgba100 : Img :=
  apply_alpha_mask img100
    (flood_fill_background 100 100 (rgbAt img100) ⟨255, 255, 255⟩ 10)

lemma rgba100_alpha (x y : Nat) :
    (rgba100.pix x y).a =
      flood_fill_background 100 100 (rgbAt img100) ⟨255, 255, 255⟩ 10
        ((x : Int), (y : Int)) := by
  rw [rgba100, apply_alpha_mask]

lemma rgba100_alpha_zero {x y : Nat} (hx : x < 100) (hy : y < 100) :
    (rgba100.pix x y).a = 0 ↔ ¬ inSquare ((x : Int), (y : Int)) := by
  rw [rgba100_alpha]
  exact mask100 _ ⟨by omega, by omega, by omega, by omega⟩

lemma rgba100_alpha_ne {x y : Nat} (hx : x < 100) (hy : y < 100) :
    (rgba100.pix x y).a ≠ 0 ↔ inSquare ((x : Int), (y : Int)) := by
  rw [ne_eq, rgba100_alpha_zero hx hy, not_not]

lemma colOpaque_rgba100_true {j : Nat} (h1 : 30 ≤ j) (h2 : j < 70) :
    colOpaque rgba100 j = true := by
  refine colOpaque_iff.2 ⟨30, by decide, ?_⟩
  rw [rgba100_alpha_ne (by omega) (by omega)]
  show (30 : Int) ≤ (j : Int) ∧ (j : Int) < 70 ∧
    (30 : Int) ≤ ((30 : Nat) : Int) ∧ ((30 : Nat) : Int) < 70
  refine ⟨by omega, by omega, by omega, by omega⟩

lemma colOpaque_rgba100_false {j : Nat} (h : j < 30 ∨ (70 ≤ j ∧ j < 100)) :
    colOpaque rgba100 j = false := by
  apply colOpaque_false
  intro y hy
  have hyb : y < 100 := hy
  rw [rgba100_alpha_zero (by omega) hyb]
  show ¬ ((30 : Int) ≤ (j : Int) ∧ (j : Int) < 70 ∧
    (30 : Int) ≤ (y : Int) ∧ (y : Int) < 70)
  omega

lemma rowOpaque_rgba100_true {j : Nat} (h1 : 30 ≤ j) (h2 : j < 70) :
    rowOpaque rgba100 j = true := by
  refine rowOpaque_iff.2 ⟨30, by decide, ?_⟩
  rw [rgba100_alpha_ne (by omega) (by omega)]
  show (30 : Int) ≤ ((30 : Nat) : Int) ∧ ((30 : Nat) : Int) < 70 ∧
    (30 : Int) ≤ (j : Int) ∧ (j : Int) < 70
  refine ⟨by omega, by omega, by omega, by omega⟩

lemma rowOpaque_rgba100_false {j : Nat} (h : j < 30 ∨ (70 ≤ j ∧ j < 100)) :
    rowOpaque rgba100 j = false := by
  apply rowOpaque_false
  intro x hx
  have hxb : x < 100 := hx
  rw [rgba100_alpha_zero hxb (by omega)]
  show ¬ ((30 : Int) ≤ (x : Int) ∧ (x : Int) < 70 ∧
    (30 : Int) ≤ (j : Int) ∧ (j : Int) < 70)
  omega

/-- The bounding box of the masked scenario buffer is the black square. -/
lemma getbbox_rgba100 : getbbox rgba100 = some (30, 30, 70, 70) := by
  have hres := getbbox_intro rgba100 30 30 69 69
    (by decide) (colOpaque_rgba100_true (by omega) (by omega))
    (fun j hj => colOpaque_rgba100_false (Or.inl hj))
    (by decide) (rowOpaque_rgba100_true (by omega) (by omega))
    (fun j hj => rowOpaque_rgba100_false (Or.inl hj))
    (by decide) (colOpaque_rgba100_true (by omega) (by omega))
    (fun j h1 h2 => colOpaque_rgba100_false (Or.inr ⟨by omega, by simpa using h2⟩))
    (by decide) (rowOpaque_rgba100_true (by omega) (by omega))
    (fun j h1 h2 => rowOpaque_rgba100_false (Or.inr ⟨by omega, by simpa using h2⟩))
  exact hres

/-- Cropping the scenario buffer with padding 2 yields the box (28,28,72,72). -/
lemma E100_eq : extract_keyboard_with_transparency img100 ⟨255, 255, 255⟩ 10 =
    cropBox rgba100 28 28 72 72 := by
  show crop_to_content rgba100 2 = _
  rw [crop_to_content, getbbox_rgba100]
  rfl

lemma fitScale_44 : fitScale 44 44 200 200 10 = 45 / 11 := by
  unfold fitScale availSpan
  norm_num

lemma fitNewW_44 : fitNewW 44 44 200 200 10 = 180 := by
  unfold fitNewW
  rw [fitScale_44]
  have h1 : ((44 : Nat) : ℚ) * (45 / 11) = 180 := by norm_num
  rw [h1]
  show ((180 : ℚ).num).tdiv ((180 : ℚ).den : Int) = 180
  norm_num

lemma fitNewH_44 : fitNewH 44 44 200 200 10 = 180 := by
  unfold fitNewH
  rw [fitScale_44]
  have h1 : ((44 : Nat) : ℚ) * (45 / 11) = 180 := by norm_num
  rw [h1]
  show ((180 : ℚ).num).tdiv ((180 : ℚ).den : Int) = 180
  norm_num

lemma fitOffX_44 : fitOffX 44 44 200 200 10 = 10 := by
  unfold fitOffX
  rw [fitNewW_44]
  decide

lemma fitOffY_44 : fitOffY 44 44 200 200 10 = 10 := by
  unfold fitOffY
  rw [fitNewH_44]
  decide

/-- The binary64 evaluation of `180/44`: it rounds down to
`4605954164356189 / 2^50`. -/
lemma fl53_180_44 : fl53 ((180 : ℚ) / 44) = 4605954164356189 / 2 ^ 50 :=
  fl53_eq_down 2 4605954164356189 (by norm_num) (by norm_num) (by norm_num)
    (by norm_num) (by norm_num)

lemma fitScaleF_44 : fitScaleF 44 44 200 200 10 = 4605954164356189 / 2 ^ 50 := by
  unfold fitScaleF
  have ha : ((availSpan 200 10 : Int) : ℚ) / ((44 : Nat) : ℚ) = (180 : ℚ) / 44 := by
    unfold availSpan
    norm_num
  rw [ha, min_self, fl53_180_44]

/-- `int(44 * (180/44))` in binary64: the product rounds up to exactly `180.0`
and truncation yields 180 — at this input the float and exact results agree. -/
lemma fitNewWF_44 : fitNewWF 44 44 200 200 10 = 180 := by
  unfold fitNewWF
  rw [fitScaleF_44]
  have hprod : ((44 : Nat) : ℚ) * (4605954164356189 / 2 ^ 50) =
      (202661983231672316 : ℚ) / 2 ^ 50 := by norm_num
  rw [hprod]
  have hfl : fl53 ((202661983231672316 : ℚ) / 2 ^ 50) = (180 : ℚ) := by
    have h : fl53 ((202661983231672316 : ℚ) / 2 ^ 50) =
        (((6333186975989759 : Int) : ℚ) + 1) / (2 : ℚ) ^ (52 - 7) :=
      fl53_eq_up 7 6333186975989759 (by norm_num) (by norm_num) (by norm_num)
        (by norm_num) (by norm_num)
    rw [h]
    norm_num
  rw [hfl, ratTrunc_eq_floor (by norm_num)]
  exact Int.floor_eq_iff.2 ⟨by norm_num, by norm_num⟩

lemma fitNewHF_44 : fitNewHF 44 44 200 200 10 = 180 := by
  have h : fitNewHF 44 44 200 200 10 = fitNewWF 44 44 200 200 10 := rfl
  rw [h, fitNewWF_44]

lemma fitOffXF_44 : fitOffXF 44 44 200 200 10 = 10 := by
  unfold fitOffXF
  rw [fitNewWF_44]
  decide

lemma fitOffYF_44 : fitOffYF 44 44 200 200 10 = 10 := by
  unfold fitOffYF
  rw [fitNewHF_44]
  decide

/-- C7: the full pipeline on the concrete scenario. The sampled background is
white; the mask is transparent exactly off the 40×40 square; cropping with
padding 2 yields a 44×44 buffer; fitting it to a 200×200 canvas with padding
10 yields a 200×200 output with a 180×180 placed region at offset (10,10), in
the exact-rational reading and in the program's binary64 arithmetic alike. -/
theorem claim_C7 :
    get_background_color img100 = ⟨255, 255, 255⟩ ∧
    (∀ p, InB 100 100 p →
      (flood_fill_background 100 100 (rgbAt img100) ⟨255, 255, 255⟩ 10 p = 0 ↔
        ¬ inSquare p)) ∧
    (extract_keyboard_with_transparency img100 ⟨255, 255, 255⟩ 10).width = 44 ∧
    (extract_keyboard_with_transparency img100 ⟨255, 255, 255⟩ 10).height = 44 ∧
    (∀ resample,
      (fit_to_canvas (extract_keyboard_with_transparency img100 ⟨255, 255, 255⟩ 10)
          200 200 10 resample).width = 200 ∧
      (fit_to_canvas (extract_keyboard_with_transparency img100 ⟨255, 255, 255⟩ 10)
          200 200 10 resample).height = 200) ∧
    fitNewW 44 44 200 200 10 = 180 ∧ fitNewH 44 44 200 200 10 = 180 ∧
    fitOffX 44 44 200 200 10 = 10 ∧ fitOffY 44 44 200 200 10 = 10 ∧
    fitNewWF 44 44 200 200 10 = 180 ∧ fitNewHF 44 44 200 200 10 = 180 ∧
    fitOffXF 44 44 200 200 10 = 10 ∧ fitOffYF 44 44 200 200 10 = 10 := by
  refine ⟨by decide, mask100, ?_, ?_, fun resample => ⟨rfl, rfl⟩,
    fitNewW_44, fitNewH_44, fitOffX_44, fitOffY_44,
    fitNewWF_44, fitNewHF_44, fitOffXF_44, fitOffYF_44⟩
  · rw [E100_eq]
    decide
  · rw [E100_eq]
    decide

/-- Witness for C7's mask characterization at the concrete corner pixel. -/
theorem claim_C7_witness :
    InB 100 100 (0, 0) ∧
    (flood_fill_background 100 100 (rgbAt img100) ⟨255, 255, 255⟩ 10 (0, 0) = 0 ↔
      ¬ inSquare (0, 0)) :=
  ⟨by decide, claim_C7.2.1 (0, 0) (by decide)⟩
